import Mathlib

/-!
Verification of the material nesting / cutting-stock optimization engine.

This file is a shallow embedding of the two nesting services of the
repository:

* `backend/app/services/nesting_service_clean.py` (the "comprehensive"
  service) — embedded without a prefix (`determine_material_category`,
  `bin_pack_linear`, `optimize_project_materials`, …);
* `backend/app/services/nesting_service.py` (the "simple" service) —
  embedded with a `simple_` prefix.

Conventions of the embedding:

* Python `float` arithmetic is modeled by exact rationals (`ℚ`); Python
  `int` by `ℤ`.  Python `//` on floats is `Int.floor` of the rational
  quotient, `math.ceil` is `Int.ceil`.
* Python insertion-ordered `dict`s are association lists; adding under an
  existing key appends to that key's bucket, a new key is appended at the
  end (`dict_add`), exactly the iteration order Python guarantees.
* Python `sorted(cuts, reverse=True)` is modeled by the stable descending
  insertion sort `sort_desc`; on a list of plain numbers every stable
  descending sort produces the same list, so the two agree as functions.
* Python `pat in s`, `s.startswith(p)`, `s.upper()`, `s.strip()` on ASCII
  strings are `str_has`, `str_starts`, `up_str`, `strip_str`.
* Python float formatting `f"{x:.0f}"` is `fmt_f0` (round to integer); the
  only values formatted by the embedded code paths are exact integers.
* Functions that can return `None` return `Option _`; the service methods
  hold no mutable state, so each is a pure Lean function.
-/

/-- Boolean test that `pat` is a leading segment of `s` (on char lists). -/
def ch_pre : List Char → List Char → Bool
  | [], _ => true
  | _ :: _, [] => false
  | a :: as, b :: bs => a == b && ch_pre as bs

/-- Boolean test that `pat` occurs contiguously inside `s` (on char lists). -/
def ch_sub (pat : List Char) : List Char → Bool
  | [] => ch_pre pat []
  | c :: rest => ch_pre pat (c :: rest) || ch_sub pat rest

/-- Python `pat in s` for strings. -/
def str_has (s pat : String) : Bool := ch_sub pat.data s.data

/-- Python `s.startswith(pat)` for strings. -/
def str_starts (s pat : String) : Bool := ch_pre pat.data s.data

/-- Python `c.upper()` for ASCII characters. -/
def up_char (c : Char) : Char :=
  if 97 ≤ c.toNat ∧ c.toNat ≤ 122 then Char.ofNat (c.toNat - 32) else c

/-- Python `s.upper()` for ASCII strings. -/
def up_str (s : String) : String := String.mk (s.data.map up_char)

/-- Python `s.strip()` (remove whitespace at both ends). -/
def strip_str (s : String) : String :=
  String.mk (((s.data.dropWhile Char.isWhitespace).reverse.dropWhile
    Char.isWhitespace).reverse)

/-- Python `f"{x:.0f}"`; all values formatted by the embedded code are
integral, where rounding is the identity on the integer part. -/
def fmt_f0 (x : ℚ) : String := toString (round x)

/-- One takeoff entry as consumed by the services (the dict fields the
services read, with the Python `dict.get` defaults). -/
structure TakeoffEntry where
  shape_key : String := ""
  qty : ℤ := 0
  length_ft : ℚ := 0
  length_in : ℚ := 0
  width_in : ℚ := 0
  thickness_in : ℚ := 0
  subcategory : String := ""
  unit_of_measure : String := "each"

/-- The `MaterialSpec` dataclass of `nesting_service_clean.py`. -/
structure MaterialSpec where
  shape_key : String
  category : String
  subcategory : String := ""
  length : ℚ := 0
  width : ℚ := 0
  thickness : ℚ := 0
  quantity : ℤ := 1
  unit_of_measure : String := "each"
  priority : ℤ := 1

/-- The `MaterialPurchase` dataclass of `nesting_service_clean.py`. -/
structure MaterialPurchase where
  shape_key : String
  size_description : String
  pieces_needed : ℤ
  total_cost : ℚ
  waste_percentage : ℚ
  material_category : String := ""
  waste_cost : ℚ := 0
  stock_length : ℚ := 0
  stock_width : ℚ := 0
  stock_thickness : ℚ := 0
  cuts_per_stick : List (List ℚ) := []
  cuts_from_this_size : List ℚ := []
  bulk_discount_applied : Bool := false
  utilization_percentage : ℚ := 0
  supplier : String := "Standard"
  optimization_notes : List String := []

/-- The `NestingResult` dataclass of `nesting_service_clean.py`. -/
structure NestingResult where
  material_purchases : List MaterialPurchase
  total_waste_percentage : ℚ
  total_cost : ℚ
  cost_savings : ℚ
  optimization_summary : String

/-- `self.standard_stock_lengths` (inches). -/
def standard_stock_lengths : List ℚ := [720, 600, 480, 360, 240, 120]

/-- `self.standard_plate_sizes` (width × length, inches). -/
def standard_plate_sizes : List (ℚ × ℚ) :=
  [(48, 96), (48, 120), (60, 120), (60, 96), (48, 144),
   (60, 144), (96, 96), (96, 240), (120, 480), (96, 480), (72, 144)]

/-- `self.material_categories`, in dict insertion order. -/
def material_categories : List (String × List String) :=
  [("linear", ["PIPE", "TUBE", "ANGLE", "CHANNEL", "BEAM", "ROD", "BAR"]),
   ("sheet", ["PLATE", "SHEET", "PL"]),
   ("grating", ["GRATING", "GRATE"]),
   ("frp", ["FRP"]),
   ("hardware", ["BOLT", "NUT", "WASHER", "SCREW", "ANCHOR", "CLIP"]),
   ("structural", ["W", "S", "C", "L", "WT", "MC", "HP"])]

/-- One value of the heterogeneous `self.optimization_params` dict; absent
keys are `none` / `[]` so that `dict.get` defaults apply at use sites.
(`edge_margin` and `piece_spacing` of the `sheet` entry are never read by
the embedded code paths and are omitted.) -/
structure CatParams where
  kerf : Option ℚ := none
  waste_target : Option ℚ := none
  standard_sizes : List (ℚ × ℚ) := []
  bulk_thresholds : List ℤ := []
  bulk_discounts : List ℚ := []

/-- `self.optimization_params`, in dict insertion order. -/
def optimization_params : List (String × CatParams) :=
  [("linear", { kerf := some 0.125, waste_target := some 5.0 }),
   ("sheet", { kerf := some 0.125 }),
   ("grating", { standard_sizes := [(24, 120), (36, 120), (48, 120)],
                 waste_target := some 8.0 }),
   ("frp", { standard_sizes := [(36, 120), (48, 96), (48, 120), (48, 144)],
             waste_target := some 10.0 }),
   ("hardware", { bulk_thresholds := [25, 50, 100, 250],
                  bulk_discounts := [0.02, 0.05, 0.10, 0.15] }),
   ("structural", { kerf := some 0.25, waste_target := some 6.0 })]

/-- `self.optimization_params.get(category, self.optimization_params['linear'])`
as used by `_optimize_linear_cuts`. -/
def get_cat_params_or_linear (category : String) : CatParams :=
  ((optimization_params.find? (fun p => p.1 == category)).map Prod.snd).getD
    { kerf := some 0.125, waste_target := some 5.0 }

/-- `self.optimization_params.get(category, {})` as used by the panel and
hardware optimizers. -/
def get_cat_params_or_empty (category : String) : CatParams :=
  ((optimization_params.find? (fun p => p.1 == category)).map Prod.snd).getD {}

/-- The kerf used by `_optimize_linear_cuts` for a category:
`params.get('kerf', 0.125)`. -/
def kerf_of (category : String) : ℚ :=
  (get_cat_params_or_linear category).kerf.getD 0.125

/-- The first-matching category of the `self.material_categories` loop in
`_determine_material_category` (substring matching, dict order). -/
def first_pattern_match (shape_upper : String) :
    List (String × List String) → Option String
  | [] => none
  | (cat, pats) :: rest =>
    if pats.any (fun p => str_has shape_upper p) then some cat
    else first_pattern_match shape_upper rest

/-- `_determine_material_category` of `nesting_service_clean.py`.  The
`entry` dict parameter of the source is never read and is omitted. -/
def determine_material_category (shape_key : String) : String :=
  let shape_upper := up_str shape_key
  match first_pattern_match shape_upper material_categories with
  | some cat => cat
  | none =>
    if str_starts shape_upper "PL" || str_has shape_upper "DUCT" then "sheet"
    else if ["19W4", "15W4", "11W4"].any (fun p => str_has shape_upper p) then
      "grating"
    else if str_has shape_upper "FRP-M-" then "frp"
    else if ["ASSEMBLY", "CLIP", "ANCHOR"].any (fun p => str_has shape_upper p)
      then "hardware"
    else if ["W", "S", "C", "L", "WT", "MC", "HP"].any
      (fun p => str_starts shape_upper p) then "structural"
    else if ["PIPE", "TUBE", "\""].any (fun p => str_has shape_upper p) then
      "linear"
    else "general"


/-- Stable descending insertion of one element (ties keep the earlier
element first). -/
def insert_desc (x : ℚ) : List ℚ → List ℚ
  | [] => [x]
  | y :: ys => if y ≤ x then x :: y :: ys else y :: insert_desc x ys

/-- Python `sorted(cuts, reverse=True)`: the stable descending sort. -/
def sort_desc : List ℚ → List ℚ
  | [] => []
  | x :: xs => insert_desc x (sort_desc xs)

/-- One open stick of the packing loop: remaining capacity paired with the
cuts already placed on it (the parallel `sticks` / `stick_cuts` lists of
the source, which always have equal length). -/
abbrev Stick := ℚ × List ℚ

/-- The `for i, remaining_space in enumerate(sticks)` placement loop: put
`cut` (consuming `req`) on the first stick with `remaining_space ≥ req`,
or fail. -/
def place_first (req cut : ℚ) : List Stick → Option (List Stick)
  | [] => none
  | (rem, cs) :: rest =>
    if req ≤ rem then some ((rem - req, cs ++ [cut]) :: rest)
    else (place_first req cut rest).map (fun l => (rem, cs) :: l)

/-- The cut-placement loop of `_bin_pack_linear`: first-fit into open
sticks, else open a new stick; `none` when a cut is too long for a fresh
stick of length `stock`. -/
def pack_cuts (stock kerf : ℚ) : List ℚ → List Stick → Option (List Stick)
  | [], sticks => some sticks
  | cut :: more, sticks =>
    match place_first (cut + kerf) cut sticks with
    | some sticks2 => pack_cuts stock kerf more sticks2
    | none =>
      if stock < cut + kerf then none
      else pack_cuts stock kerf more (sticks ++ [(stock - (cut + kerf), [cut])])

/-- The result dict of `_bin_pack_linear`. -/
structure PackResult where
  sticks_needed : ℕ
  stock_length : ℚ
  efficiency : ℚ
  waste_percentage : ℚ
  total_waste : ℚ
  cuts_per_stick : List (List ℚ)

/-- `_bin_pack_linear` of `nesting_service_clean.py`. -/
def bin_pack_linear (cuts : List ℚ) (stock_length kerf : ℚ) :
    Option PackResult :=
  (pack_cuts stock_length kerf cuts []).map (fun sticks =>
    let stick_cuts := sticks.map Prod.snd
    let num_sticks : ℕ := sticks.length
    let total_used := (stick_cuts.map List.sum).sum
    let total_kerf := (stick_cuts.map (fun l => (l.length : ℚ) * kerf)).sum
    let total_available := (num_sticks : ℚ) * stock_length
    let total_waste := total_available - total_used - total_kerf
    { sticks_needed := num_sticks
      stock_length := stock_length
      efficiency :=
        if 0 < total_available then (total_used + total_kerf) / total_available * 100
        else 0
      waste_percentage :=
        if 0 < total_available then total_waste / total_available * 100 else 0
      total_waste := total_waste
      cuts_per_stick := stick_cuts })

/-- The candidate-selection loop of `_optimize_linear_cuts`: keep the
first result whose efficiency strictly exceeds the best so far (initial
best efficiency `0`). -/
def pick_best_pack (f : ℚ → Option PackResult) :
    List ℚ → Option PackResult → ℚ → Option PackResult
  | [], best, _ => best
  | L :: rest, best, best_eff =>
    match f L with
    | some r =>
      if best_eff < r.efficiency then pick_best_pack f rest (some r) r.efficiency
      else pick_best_pack f rest best best_eff
    | none => pick_best_pack f rest best best_eff

/-- `_estimate_linear_cost`. -/
def estimate_linear_cost (shape_key : String) (stock_length : ℚ) : ℚ :=
  let u := up_str shape_key
  let per_foot : ℚ :=
    if str_has u "PIPE" || str_has u "TUBE" then 10 * 1.2
    else if str_has u "BEAM" || str_has u "W" || str_has u "S" then 10 * 1.5
    else 10
  stock_length / 12 * per_foot

/-- `_optimize_linear_cuts` of `nesting_service_clean.py`. -/
def optimize_linear_cuts (shape_key : String) (cuts : List ℚ)
    (category : String) : Option MaterialPurchase :=
  if cuts = [] then none
  else
    let kerf := kerf_of category
    let sorted_cuts := sort_desc cuts
    match pick_best_pack (fun L => bin_pack_linear sorted_cuts L kerf)
      standard_stock_lengths none 0 with
    | none => none
    | some best =>
      let cost_per_stick := estimate_linear_cost shape_key best.stock_length
      let total_cost := (best.sticks_needed : ℚ) * cost_per_stick
      let waste_cost := best.total_waste / best.stock_length * cost_per_stick
      some { shape_key := shape_key
             size_description := fmt_f0 (best.stock_length / 12) ++ "\x27 sticks"
             pieces_needed := (best.sticks_needed : ℤ)
             total_cost := total_cost
             waste_percentage := best.waste_percentage
             material_category := category
             waste_cost := waste_cost
             stock_length := best.stock_length
             cuts_per_stick := best.cuts_per_stick
             cuts_from_this_size := cuts
             utilization_percentage := best.efficiency
             optimization_notes :=
               ["Optimized using " ++ fmt_f0 (best.stock_length / 12) ++
                "\x27 stock lengths"] }

/-- Expansion of a group's specs into individual cut lengths
(`for _ in range(spec.quantity): cuts.append(spec.length)`). -/
def cuts_of_specs (specs : List MaterialSpec) : List ℚ :=
  specs.flatMap (fun s => List.replicate s.quantity.toNat s.length)

/-- `_optimize_linear_materials` (dict iteration is bucket order). -/
def optimize_linear_materials (materials : List (String × List MaterialSpec)) :
    List MaterialPurchase :=
  materials.filterMap (fun g => optimize_linear_cuts g.1 (cuts_of_specs g.2) "linear")

/-- `_optimize_structural_materials`. -/
def optimize_structural_materials
    (materials : List (String × List MaterialSpec)) : List MaterialPurchase :=
  materials.filterMap
    (fun g => optimize_linear_cuts g.1 (cuts_of_specs g.2) "structural")

/-- Boolean fit test of a piece on a sheet, normal or 90°-rotated
orientation, shared by `_find_best_sheet_fit` and
`_optimize_plate_material`. -/
def fits_piece (pw pl sw sl : ℚ) : Bool :=
  (pw ≤ sw && pl ≤ sl) || (pw ≤ sl && pl ≤ sw)

/-- First minimum by leftover waste: Python's stable ascending sort by
`x[0]` followed by taking `[0]` selects the least key, earliest on ties. -/
def min_by_waste : List (ℚ × (ℚ × ℚ)) → Option (ℚ × (ℚ × ℚ))
  | [] => none
  | x :: xs =>
    match min_by_waste xs with
    | none => some x
    | some m => if x.1 ≤ m.1 then some x else some m

/-- `_find_best_sheet_fit` of `nesting_service_clean.py`.  Its `category`
parameter is never read and is omitted. -/
def find_best_sheet_fit (piece_width piece_length : ℚ) : Option (ℚ × ℚ) :=
  let suitable := standard_plate_sizes.filterMap (fun wl =>
    if fits_piece piece_width piece_length wl.1 wl.2 then
      some (wl.1 * wl.2 - piece_width * piece_length, wl)
    else none)
  (min_by_waste suitable).map Prod.snd

/-- `_estimate_sheet_cost`. -/
def estimate_sheet_cost (width length thickness : ℚ) : ℚ :=
  width * length / 144 * (5 + thickness * 2)

/-- One element of the `sheet_details` list built by
`_optimize_single_sheet_size`. -/
structure SheetDetail where
  width : ℚ
  length : ℚ
  pieces_per_sheet : ℤ
  quantity : ℤ

/-- The result dict of `_optimize_single_sheet_size`. -/
structure SheetSizeResult where
  sheets_needed : ℤ
  cost : ℚ
  waste_percentage : ℚ
  sheet_details : List SheetDetail

/-- `_optimize_single_sheet_size` of `nesting_service_clean.py`. -/
def optimize_single_sheet_size (specs : List MaterialSpec) (_category : String) :
    Option SheetSizeResult :=
  match specs with
  | [] => none
  | piece_spec :: _ =>
    let piece_width := piece_spec.width
    let piece_length := piece_spec.length
    let total_qty := (specs.map MaterialSpec.quantity).sum
    if piece_width = 0 ∨ piece_length = 0 then none
    else
      let piece_area := piece_width * piece_length
      match find_best_sheet_fit piece_width piece_length with
      | none => none
      | some (sheet_width, sheet_length) =>
        let sheet_area := sheet_width * sheet_length
        let pps_normal := ⌊sheet_width / piece_width⌋ * ⌊sheet_length / piece_length⌋
        let pps :=
          if pps_normal = 0 then
            ⌊sheet_width / piece_length⌋ * ⌊sheet_length / piece_width⌋
          else pps_normal
        if pps = 0 then none
        else
          let sheets_needed := ⌈(total_qty : ℚ) / (pps : ℚ)⌉
          let used_area := (total_qty : ℚ) * piece_area
          let total_sheet_area := (sheets_needed : ℚ) * sheet_area
          let waste_area := total_sheet_area - used_area
          let waste_percentage :=
            if 0 < total_sheet_area then waste_area / total_sheet_area * 100 else 0
          let cost_per_sheet :=
            estimate_sheet_cost sheet_width sheet_length piece_spec.thickness
          some { sheets_needed := sheets_needed
                 cost := (sheets_needed : ℚ) * cost_per_sheet
                 waste_percentage := waste_percentage
                 sheet_details :=
                   [{ width := sheet_width, length := sheet_length,
                      pieces_per_sheet := pps, quantity := sheets_needed }] }

/-- Insertion-ordered dict insertion (`if k not in d: d[k] = []` followed
by `d[k].append(v)`). -/
def dict_add {κ α : Type} [DecidableEq κ] :
    List (κ × List α) → κ → α → List (κ × List α)
  | [], k, a => [(k, [a])]
  | (k2, as2) :: rest, k, a =>
    if k2 = k then (k2, as2 ++ [a]) :: rest
    else (k2, as2) :: dict_add rest k a

/-- The `size_groups` dict of `_optimize_sheet_nesting`, keyed by the
(width, length, thickness) signature (the source's `f"{w}x{l}x{t}"` key,
which is injective on the signature). -/
def group_by_size (specs : List MaterialSpec) :
    List ((ℚ × ℚ × ℚ) × List MaterialSpec) :=
  specs.foldl (fun acc s => dict_add acc (s.width, s.length, s.thickness) s) []

/-- `_optimize_sheet_nesting` of `nesting_service_clean.py`.  The
`all_sheets` list collected by the source is never read afterwards and is
omitted. -/
def optimize_sheet_nesting (shape_key : String) (specs : List MaterialSpec)
    (category : String) : Option MaterialPurchase :=
  if specs.isEmpty then none
  else
    let size_groups := group_by_size specs
    let results :=
      size_groups.filterMap (fun g => optimize_single_sheet_size g.2 category)
    let total_cost := (results.map SheetSizeResult.cost).sum
    let total_pieces := (results.map SheetSizeResult.sheets_needed).sum
    let weighted_waste :=
      (results.map (fun r => r.waste_percentage * r.cost)).sum
    if total_cost = 0 then none
    else
      let avg_waste_percentage := weighted_waste / total_cost
      some { shape_key := shape_key
             size_description := "Various sheet sizes"
             pieces_needed := total_pieces
             total_cost := total_cost
             waste_percentage := avg_waste_percentage
             material_category := category
             waste_cost := total_cost * (avg_waste_percentage / 100)
             optimization_notes :=
               ["Optimized " ++ toString size_groups.length ++
                " different piece sizes"] }

/-- `_estimate_panel_cost`. -/
def estimate_panel_cost (_shape_key category : String) : ℚ :=
  if category = "grating" then 150 else if category = "frp" then 300 else 100

/-- `_optimize_panel_nesting` of `nesting_service_clean.py` (the
`standard_sizes` parameter it reads is never used afterwards). -/
def optimize_panel_nesting (shape_key : String) (specs : List MaterialSpec)
    (category : String) : Option MaterialPurchase :=
  if specs.isEmpty then none
  else
    let total_qty := (specs.map MaterialSpec.quantity).sum
    let params := get_cat_params_or_empty category
    let avg_unit_cost := estimate_panel_cost shape_key category
    let total_cost := (total_qty : ℚ) * avg_unit_cost
    let waste_percentage := params.waste_target.getD 5.0
    some { shape_key := shape_key
           size_description := "Standard panel sizes"
           pieces_needed := total_qty
           total_cost := total_cost
           waste_percentage := waste_percentage
           material_category := category
           waste_cost := total_cost * (waste_percentage / 100)
           optimization_notes := [up_str category ++ " panels - standard sizes used"] }

/-- `_estimate_hardware_cost`. -/
def estimate_hardware_cost (shape_key : String) : ℚ :=
  let u := up_str shape_key
  if str_has u "BOLT" || str_has u "ASSEMBLY" then 2.50
  else if str_has u "CLIP" then 1.50
  else if str_has u "ANCHOR" then 2.20
  else 1.00

/-- The bulk-discount loop of `_optimize_hardware_batching`: walk the
(threshold, discount) pairs in order, keeping the discount of the last
threshold met (result: final discount rate and whether any tier applied). -/
def apply_bulk_discount (tiers : List (ℤ × ℚ)) (total_qty : ℤ) : ℚ × Bool :=
  tiers.foldl (fun acc t => if t.1 ≤ total_qty then (t.2, true) else acc)
    (0, false)

/-- `_optimize_hardware_batching` of `nesting_service_clean.py`. -/
def optimize_hardware_batching (shape_key : String)
    (specs : List MaterialSpec) : Option MaterialPurchase :=
  if specs.isEmpty then none
  else
    let total_qty := (specs.map MaterialSpec.quantity).sum
    let params := get_cat_params_or_empty "hardware"
    let thresholds :=
      if params.bulk_thresholds = [] then [25, 50, 100, 250]
      else params.bulk_thresholds
    let discounts :=
      if params.bulk_discounts = [] then [0.02, 0.05, 0.10, 0.15]
      else params.bulk_discounts
    let base_unit_cost := estimate_hardware_cost shape_key
    let dr := apply_bulk_discount (thresholds.zip discounts) total_qty
    let unit_cost := base_unit_cost * (1 - dr.1)
    let total_cost := (total_qty : ℚ) * unit_cost
    let notes :=
      if dr.2 then
        ["Bulk discount applied: " ++ fmt_f0 (dr.1 * 100) ++ "% off for " ++
         toString total_qty ++ " pieces"]
      else []
    some { shape_key := shape_key
           size_description := toString total_qty ++ " pieces"
           pieces_needed := total_qty
           total_cost := total_cost
           waste_percentage := 0
           material_category := "hardware"
           bulk_discount_applied := dr.2
           optimization_notes := notes }

/-- `_optimize_sheet_materials`. -/
def optimize_sheet_materials (materials : List (String × List MaterialSpec)) :
    List MaterialPurchase :=
  materials.filterMap (fun g => optimize_sheet_nesting g.1 g.2 "sheet")

/-- `_optimize_grating_materials`. -/
def optimize_grating_materials (materials : List (String × List MaterialSpec)) :
    List MaterialPurchase :=
  materials.filterMap (fun g => optimize_panel_nesting g.1 g.2 "grating")

/-- `_optimize_frp_materials` (appends a fiber-direction note to each
panel purchase). -/
def optimize_frp_materials (materials : List (String × List MaterialSpec)) :
    List MaterialPurchase :=
  materials.filterMap (fun g =>
    (optimize_panel_nesting g.1 g.2 "frp").map (fun p =>
      { p with optimization_notes :=
          p.optimization_notes ++ ["FRP: Fiber direction constraints applied"] }))

/-- `_optimize_hardware_materials`. -/
def optimize_hardware_materials (materials : List (String × List MaterialSpec)) :
    List MaterialPurchase :=
  materials.filterMap (fun g => optimize_hardware_batching g.1 g.2)

/-- `_optimize_general_materials` (always produces a purchase per group). -/
def optimize_general_materials (materials : List (String × List MaterialSpec)) :
    List MaterialPurchase :=
  materials.map (fun g =>
    let total_qty := (g.2.map MaterialSpec.quantity).sum
    { shape_key := g.1
      size_description := "As specified"
      pieces_needed := total_qty
      total_cost := (total_qty : ℚ) * 50
      waste_percentage := 0
      material_category := "general"
      optimization_notes := ["Basic quantity aggregation - consider manual review"] })

/-- The processed shape key of an entry:
`entry.get('shape_key', '').upper().strip()`. -/
def entry_shape_key (e : TakeoffEntry) : String := strip_str (up_str e.shape_key)

/-- The `MaterialSpec` built by `_categorize_and_process_entry`. -/
def spec_of_entry (e : TakeoffEntry) (category : String) : MaterialSpec :=
  { shape_key := entry_shape_key e
    category := category
    subcategory := e.subcategory
    length := e.length_ft * 12 + e.length_in
    width := e.width_in
    thickness := e.thickness_in
    quantity := e.qty
    unit_of_measure := e.unit_of_measure
    priority := 1 }

/-- The `material_groups` dict-of-dicts, one bucket per category literal. -/
structure MaterialGroups where
  linear : List (String × List MaterialSpec) := []
  sheet : List (String × List MaterialSpec) := []
  grating : List (String × List MaterialSpec) := []
  frp : List (String × List MaterialSpec) := []
  hardware : List (String × List MaterialSpec) := []
  structural : List (String × List MaterialSpec) := []
  general : List (String × List MaterialSpec) := []

/-- `_categorize_and_process_entry` of `nesting_service_clean.py` (skips
empty keys and non-positive quantities, otherwise files one spec under the
classified category). -/
def categorize_and_process_entry (groups : MaterialGroups) (e : TakeoffEntry) :
    MaterialGroups :=
  let key := entry_shape_key e
  if key = "" then groups
  else if e.qty ≤ 0 then groups
  else
    let category := determine_material_category key
    let spec := spec_of_entry e category
    if category = "linear" then
      { groups with linear := dict_add groups.linear key spec }
    else if category = "sheet" then
      { groups with sheet := dict_add groups.sheet key spec }
    else if category = "grating" then
      { groups with grating := dict_add groups.grating key spec }
    else if category = "frp" then
      { groups with frp := dict_add groups.frp key spec }
    else if category = "hardware" then
      { groups with hardware := dict_add groups.hardware key spec }
    else if category = "structural" then
      { groups with structural := dict_add groups.structural key spec }
    else { groups with general := dict_add groups.general key spec }

/-- The entry-processing loop of `optimize_project_materials`. -/
def build_groups (entries : List TakeoffEntry) : MaterialGroups :=
  entries.foldl categorize_and_process_entry {}

/-- The `category_counts` dict of the summary (insertion-ordered counter). -/
def bump_count : List (String × ℕ) → String → List (String × ℕ)
  | [], k => [(k, 1)]
  | (k2, n) :: rest, k =>
    if k2 = k then (k2, n + 1) :: rest else (k2, n) :: bump_count rest k

/-- Category counting over the purchases
(`cat = purchase.material_category or 'general'`). -/
def category_counts (ps : List MaterialPurchase) : List (String × ℕ) :=
  ps.foldl (fun acc p =>
    bump_count acc
      (if p.material_category = "" then "general" else p.material_category)) []

/-- `optimize_project_materials` of `nesting_service_clean.py`.  The
`project_id` parameter is only printed and is omitted; the categories are
dispatched in the dict order of `material_groups`. -/
def optimize_project_materials (entries : List TakeoffEntry) : NestingResult :=
  let groups := build_groups entries
  let all_purchases :=
    optimize_linear_materials groups.linear ++
    optimize_sheet_materials groups.sheet ++
    optimize_grating_materials groups.grating ++
    optimize_frp_materials groups.frp ++
    optimize_hardware_materials groups.hardware ++
    optimize_structural_materials groups.structural ++
    optimize_general_materials groups.general
  if all_purchases.isEmpty then
    { material_purchases := []
      total_waste_percentage := 0
      total_cost := 0
      cost_savings := 0
      optimization_summary := "No materials found for optimization" }
  else
    let total_cost := (all_purchases.map MaterialPurchase.total_cost).sum
    let weighted_waste :=
      if 0 < total_cost then
        (all_purchases.map (fun p => p.waste_percentage * p.total_cost)).sum /
          total_cost
      else 0
    let baseline_cost := total_cost / 0.85
    let cost_savings := baseline_cost - total_cost
    let counts := category_counts all_purchases
    let summary_parts := counts.map (fun c => toString c.2 ++ " " ++ c.1)
    { material_purchases := all_purchases
      total_waste_percentage := weighted_waste
      total_cost := total_cost
      cost_savings := cost_savings
      optimization_summary :=
        "Optimized " ++ toString all_purchases.length ++ " total materials: " ++
        String.intercalate ", " summary_parts }

/-- The `MaterialPurchase` dataclass of the simple service
(`nesting_service.py`), which has fewer fields. -/
structure SimpleMaterialPurchase where
  shape_key : String
  size_description : String
  pieces_needed : ℤ
  total_cost : ℚ
  waste_percentage : ℚ
  waste_cost : ℚ := 0
  stock_length : ℚ := 0
  cuts_per_stick : List (List ℚ) := []
  cuts_from_this_size : List ℚ := []

/-- The packing loop of the simple `_optimize_linear_material`: identical
first-fit placement but with no kerf and no oversize check — a too-long
cut simply opens a stick with negative remaining space. -/
def simple_pack (stock : ℚ) : List ℚ → List Stick → List Stick
  | [], sticks => sticks
  | cut :: more, sticks =>
    match place_first cut cut sticks with
    | some sticks2 => simple_pack stock more sticks2
    | none => simple_pack stock more (sticks ++ [(stock - cut, [cut])])

/-- `_optimize_linear_material` of `nesting_service.py` (always uses the
largest standard stock length, 720 inches, and a $100 placeholder cost per
stick). -/
def simple_optimize_linear_material (material : String) (cuts : List ℚ) :
    Option SimpleMaterialPurchase :=
  if cuts = [] then none
  else
    let stock_length : ℚ := 720
    let sticks := simple_pack stock_length (sort_desc cuts) []
    let stick_cuts := sticks.map Prod.snd
    let num_sticks : ℕ := sticks.length
    let total_used := (stick_cuts.map List.sum).sum
    let total_available := (num_sticks : ℚ) * stock_length
    let total_waste := total_available - total_used
    let waste_percentage :=
      if 0 < total_available then total_waste / total_available * 100 else 0
    let cost_per_stick : ℚ := 100
    some { shape_key := material
           size_description := fmt_f0 (stock_length / 12) ++ "\x27 sticks"
           pieces_needed := (num_sticks : ℤ)
           total_cost := (num_sticks : ℚ) * cost_per_stick
           waste_percentage := waste_percentage
           waste_cost :=
             if 0 < stock_length then total_waste / stock_length * cost_per_stick
             else 0
           stock_length := stock_length
           cuts_per_stick := stick_cuts
           cuts_from_this_size := stick_cuts.flatten }

/-- The best-fit loop of the simple `_optimize_plate_material`: first
strict minimum of leftover waste over the fitting plate sizes. -/
def simple_best_fit (width length : ℚ) : Option (ℚ × ℚ × ℚ) :=
  standard_plate_sizes.foldl (fun best wl =>
    if fits_piece width length wl.1 wl.2 then
      let waste := wl.1 * wl.2 - width * length
      match best with
      | none => some (waste, wl.1, wl.2)
      | some b => if waste < b.1 then some (waste, wl.1, wl.2) else best
    else best) none

/-- `_optimize_plate_material` of `nesting_service.py`.  When no plate
size fits it falls back to the largest sheet (96 × 240) and still returns
a purchase (the source's `Optional` return is in fact always a value). -/
def simple_optimize_plate_material (material : String) (width length : ℚ)
    (qty : ℤ) : SimpleMaterialPurchase :=
  let piece_area := width * length
  let bf :=
    match simple_best_fit width length with
    | some b => b
    | none => ((96 : ℚ) * 240 - piece_area, 96, 240)
  let best_waste := bf.1
  let stock_area := bf.2.1 * bf.2.2
  let waste_percentage := best_waste / stock_area * 100
  let total_sqft_both_sides := piece_area / 144 * 2 * (qty : ℚ)
  let total_cost := total_sqft_both_sides * 5
  { shape_key := material
    size_description := fmt_f0 bf.2.1 ++ "x" ++ fmt_f0 bf.2.2 ++ " sheets"
    pieces_needed := qty
    total_cost := total_cost
    waste_percentage := waste_percentage
    waste_cost := if 0 < stock_area then best_waste / stock_area * total_cost else 0
    cuts_from_this_size := List.replicate qty.toNat piece_area }

/-- Specification-side reading of the hardware tier rule ("select the
highest threshold met and apply its discount"): the discount of the last
(≡ highest, thresholds ascending) tier whose threshold is met, `0` when
none is met.  Used only to compare the code's loop against the spec's
words. -/
def spec_highest_met_discount (tiers : List (ℤ × ℚ)) (qty : ℤ) : ℚ :=
  ((tiers.reverse.find? (fun t => t.1 ≤ qty)).map Prod.snd).getD 0

/-- Invariant of one open stick during linear packing: nonnegative
remaining space that accounts exactly for the cuts and kerf consumed. -/
def stick_ok (stock kerf : ℚ) (st : Stick) : Prop :=
  0 ≤ st.1 ∧ st.1 = stock - (st.2.sum + (st.2.length : ℚ) * kerf)

/-- All cuts recorded on the open sticks are nonnegative. -/
def sticks_nn (sticks : List Stick) : Prop :=
  ∀ st ∈ sticks, ∀ x ∈ st.2, (0 : ℚ) ≤ x

/-- Nonnegativity of the numeric fields of a takeoff entry (physical
dimensions cannot be negative). -/
def entry_nn (e : TakeoffEntry) : Prop :=
  0 ≤ e.length_ft ∧ 0 ≤ e.length_in ∧ 0 ≤ e.width_in ∧ 0 ≤ e.thickness_in

/-- Nonnegativity of a grouped material spec (what `entry_nn` plus the
positive-quantity guard of `_categorize_and_process_entry` yield). -/
def spec_nn (s : MaterialSpec) : Prop :=
  0 ≤ s.length ∧ 0 ≤ s.width ∧ 0 ≤ s.thickness ∧ 1 ≤ s.quantity

/-- Every spec of every bucket of a grouped-materials dict satisfies
`spec_nn`. -/
def bucket_nn (l : List (String × List MaterialSpec)) : Prop :=
  ∀ g ∈ l, ∀ s ∈ g.2, spec_nn s

/-- `bucket_nn` on all seven category buckets. -/
def groups_nn (g : MaterialGroups) : Prop :=
  bucket_nn g.linear ∧ bucket_nn g.sheet ∧ bucket_nn g.grating ∧
  bucket_nn g.frp ∧ bucket_nn g.hardware ∧ bucket_nn g.structural ∧
  bucket_nn g.general

theorem insert_desc_perm (x : ℚ) (l : List ℚ) : (insert_desc x l).Perm (x :: l) := by
  induction l with
  | nil => simp [insert_desc]
  | cons y ys ih =>
    by_cases h : y ≤ x
    · simp [insert_desc, h]
    · simp only [insert_desc, if_neg h]
      exact ((ih.cons y).trans (List.Perm.swap x y ys))

theorem sort_desc_perm (l : List ℚ) : (sort_desc l).Perm l := by
  induction l with
  | nil => simp [sort_desc]
  | cons x xs ih =>
    exact (insert_desc_perm x (sort_desc xs)).trans (ih.cons x)

theorem place_first_ok {stock kerf cut : ℚ} :
    ∀ {sticks out : List Stick},
      place_first (cut + kerf) cut sticks = some out →
      (∀ st ∈ sticks, stick_ok stock kerf st) →
      ∀ st ∈ out, stick_ok stock kerf st := by
  intro sticks
  induction sticks with
  | nil => intro out h; simp [place_first] at h
  | cons hd tl ih =>
    intro out h hok
    obtain ⟨rem, cs⟩ := hd
    by_cases hfits : cut + kerf ≤ rem
    · simp only [place_first, if_pos hfits, Option.some.injEq] at h
      subst h
      intro st hst
      rcases List.mem_cons.mp hst with hst | hst
      · obtain ⟨h0, heq⟩ := hok (rem, cs) (List.mem_cons_self _ _)
        subst hst
        constructor
        · simpa using hfits
        · simp only at heq ⊢
          rw [heq]
          simp only [List.sum_append, List.length_append, List.sum_cons,
            List.sum_nil, List.length_cons, List.length_nil]
          push_cast
          ring
      · exact hok st (List.mem_cons_of_mem _ hst)
    · simp only [place_first, if_neg hfits, Option.map_eq_some'] at h
      obtain ⟨out', hout', rfl⟩ := h
      intro st hst
      rcases List.mem_cons.mp hst with hst | hst
      · exact hst ▸ hok (rem, cs) (List.mem_cons_self _ _)
      · exact ih hout' (fun st' hst' => hok st' (List.mem_cons_of_mem _ hst')) st hst

theorem pack_cuts_ok {stock kerf : ℚ} :
    ∀ {cuts : List ℚ} {sticks out : List Stick},
      pack_cuts stock kerf cuts sticks = some out →
      (∀ st ∈ sticks, stick_ok stock kerf st) →
      ∀ st ∈ out, stick_ok stock kerf st := by
  intro cuts
  induction cuts with
  | nil =>
    intro sticks out h hok
    simp only [pack_cuts, Option.some.injEq] at h
    exact h ▸ hok
  | cons cut more ih =>
    intro sticks out h hok
    simp only [pack_cuts] at h
    cases hplace : place_first (cut + kerf) cut sticks with
    | some sticks2 =>
      rw [hplace] at h
      exact ih h (place_first_ok hplace hok)
    | none =>
      rw [hplace] at h
      by_cases hlong : stock < cut + kerf
      · simp [if_pos hlong] at h
      · simp only [if_neg hlong] at h
        refine ih h ?_
        intro st hst
        rcases List.mem_append.mp hst with hst | hst
        · exact hok st hst
        · simp only [List.mem_singleton] at hst
          subst hst
          constructor
          · simpa using not_lt.mp hlong
          · simp

theorem place_first_perm {req cut : ℚ} :
    ∀ {sticks out : List Stick},
      place_first req cut sticks = some out →
      ((out.map Prod.snd).flatten).Perm (cut :: (sticks.map Prod.snd).flatten) := by
  intro sticks
  induction sticks with
  | nil => intro out h; simp [place_first] at h
  | cons hd tl ih =>
    intro out h
    obtain ⟨rem, cs⟩ := hd
    by_cases hfits : req ≤ rem
    · simp only [place_first, if_pos hfits, Option.some.injEq] at h
      subst h
      simp only [List.map_cons, List.flatten_cons, List.append_assoc,
        List.singleton_append]
      exact List.perm_middle
    · simp only [place_first, if_neg hfits, Option.map_eq_some'] at h
      obtain ⟨out', hout', rfl⟩ := h
      simp only [List.map_cons, List.flatten_cons]
      exact ((ih hout').append_left cs).trans List.perm_middle

theorem pack_cuts_perm {stock kerf : ℚ} :
    ∀ {cuts : List ℚ} {sticks out : List Stick},
      pack_cuts stock kerf cuts sticks = some out →
      ((out.map Prod.snd).flatten).Perm (cuts ++ (sticks.map Prod.snd).flatten) := by
  intro cuts
  induction cuts with
  | nil =>
    intro sticks out h
    simp only [pack_cuts, Option.some.injEq] at h
    subst h
    simp
  | cons cut more ih =>
    intro sticks out h
    simp only [pack_cuts] at h
    cases hplace : place_first (cut + kerf) cut sticks with
    | some sticks2 =>
      rw [hplace] at h
      exact (ih h).trans
        (((place_first_perm hplace).append_left more).trans List.perm_middle)
    | none =>
      rw [hplace] at h
      by_cases hlong : stock < cut + kerf
      · simp [if_pos hlong] at h
      · simp only [if_neg hlong] at h
        have h2 := ih h
        simp only [List.map_append, List.map_cons, List.map_nil,
          List.flatten_append, List.flatten_cons, List.flatten_nil,
          List.append_nil] at h2
        refine h2.trans ?_
        rw [← List.append_assoc]
        exact List.perm_append_singleton cut _

theorem sum_sticks_split (kerf : ℚ) (L : List (List ℚ)) :
    (L.map List.sum).sum + (L.map (fun l => (l.length : ℚ) * kerf)).sum =
    L.flatten.sum + (L.flatten.length : ℚ) * kerf := by
  induction L with
  | nil => simp
  | cons hd tl ih =>
    simp only [List.map_cons, List.sum_cons, List.flatten_cons,
      List.sum_append, List.length_append]
    push_cast
    linarith

theorem capacity_of_ok {stock kerf : ℚ} :
    ∀ {sticks : List Stick}, (∀ st ∈ sticks, stick_ok stock kerf st) →
      ((sticks.map Prod.snd).map List.sum).sum +
        ((sticks.map Prod.snd).map (fun l => (l.length : ℚ) * kerf)).sum ≤
      (sticks.length : ℚ) * stock := by
  intro sticks
  induction sticks with
  | nil => simp
  | cons hd tl ih =>
    intro hok
    have hhd := hok hd (List.mem_cons_self _ _)
    obtain ⟨h0, heq⟩ := hhd
    have hbound : hd.2.sum + (hd.2.length : ℚ) * kerf ≤ stock := by linarith
    have htl := ih (fun st hst => hok st (List.mem_cons_of_mem _ hst))
    simp only [List.map_cons, List.sum_cons, List.length_cons]
    push_cast
    linarith

theorem bin_pack_elim {cuts : List ℚ} {stock kerf : ℚ} {r : PackResult}
    (h : bin_pack_linear cuts stock kerf = some r) :
    ∃ sticks, pack_cuts stock kerf cuts [] = some sticks ∧
      r.sticks_needed = sticks.length ∧
      r.stock_length = stock ∧
      r.cuts_per_stick = sticks.map Prod.snd ∧
      r.total_waste = (sticks.length : ℚ) * stock -
        ((sticks.map Prod.snd).map List.sum).sum -
        ((sticks.map Prod.snd).map (fun l => (l.length : ℚ) * kerf)).sum ∧
      r.efficiency = (if 0 < (sticks.length : ℚ) * stock then
        (((sticks.map Prod.snd).map List.sum).sum +
          ((sticks.map Prod.snd).map (fun l => (l.length : ℚ) * kerf)).sum) /
          ((sticks.length : ℚ) * stock) * 100 else 0) ∧
      r.waste_percentage = (if 0 < (sticks.length : ℚ) * stock then
        ((sticks.length : ℚ) * stock -
          ((sticks.map Prod.snd).map List.sum).sum -
          ((sticks.map Prod.snd).map (fun l => (l.length : ℚ) * kerf)).sum) /
          ((sticks.length : ℚ) * stock) * 100 else 0) := by
  simp only [bin_pack_linear, Option.map_eq_some'] at h
  obtain ⟨sticks, hp, hr⟩ := h
  subst hr
  exact ⟨sticks, hp, rfl, rfl, rfl, rfl, rfl, rfl⟩

theorem bin_pack_perm {cuts : List ℚ} {stock kerf : ℚ} {r : PackResult}
    (h : bin_pack_linear cuts stock kerf = some r) :
    (r.cuts_per_stick.flatten).Perm cuts := by
  obtain ⟨sticks, hp, -, -, hcps, -⟩ := bin_pack_elim h
  rw [hcps]
  have := pack_cuts_perm hp
  simpa using this

theorem bin_pack_stock_eq {cuts : List ℚ} {stock kerf : ℚ} {r : PackResult}
    (h : bin_pack_linear cuts stock kerf = some r) : r.stock_length = stock :=
  (bin_pack_elim h).choose_spec.2.2.1

theorem bin_pack_capacity {cuts : List ℚ} {stock kerf : ℚ} {r : PackResult}
    (h : bin_pack_linear cuts stock kerf = some r) :
    r.cuts_per_stick.flatten.sum +
      (r.cuts_per_stick.flatten.length : ℚ) * kerf ≤
    (r.sticks_needed : ℚ) * stock := by
  obtain ⟨sticks, hp, hn, -, hcps, -⟩ := bin_pack_elim h
  rw [hcps, hn, ← sum_sticks_split]
  exact capacity_of_ok (pack_cuts_ok hp (by simp))

theorem bin_pack_num_pos {cuts : List ℚ} {stock kerf : ℚ} {r : PackResult}
    (h : bin_pack_linear cuts stock kerf = some r) (hc : cuts ≠ []) :
    0 < r.sticks_needed := by
  obtain ⟨sticks, hp, hn, -, hcps, -⟩ := bin_pack_elim h
  rw [hn]
  rcases sticks with - | ⟨st, sticks'⟩
  · exfalso
    have hperm := bin_pack_perm h
    rw [hcps] at hperm
    simp only [List.map_nil, List.flatten_nil] at hperm
    exact hc hperm.symm.eq_nil
  · simp

theorem bin_pack_eff_eq {cuts : List ℚ} {stock kerf : ℚ} {r : PackResult}
    (h : bin_pack_linear cuts stock kerf = some r) (hc : cuts ≠ [])
    (hst : 0 < stock) :
    r.efficiency = (cuts.sum + (cuts.length : ℚ) * kerf) /
      ((r.sticks_needed : ℚ) * stock) * 100 := by
  have hperm := bin_pack_perm h
  have hnum := bin_pack_num_pos h hc
  obtain ⟨sticks, hp, hn, -, hcps, -, heff, -⟩ := bin_pack_elim h
  have havail : 0 < (sticks.length : ℚ) * stock := by
    apply mul_pos _ hst
    rw [← hn]
    exact_mod_cast hnum
  rw [heff, if_pos havail, ← hn]
  congr 1
  rw [sum_sticks_split, ← hcps, hperm.sum_eq, hperm.length_eq]

theorem bin_pack_eff_pos {cuts : List ℚ} {stock kerf : ℚ} {r : PackResult}
    (h : bin_pack_linear cuts stock kerf = some r) (hc : cuts ≠ [])
    (hnn : ∀ c ∈ cuts, 0 ≤ c) (hk : 0 < kerf) (hst : 0 < stock) :
    0 < r.efficiency := by
  rw [bin_pack_eff_eq h hc hst]
  have hnum : 0 < cuts.sum + (cuts.length : ℚ) * kerf := by
    have hsum : 0 ≤ cuts.sum := List.sum_nonneg hnn
    have hlen : 0 < (cuts.length : ℚ) := by
      have : 0 < cuts.length := List.length_pos.mpr hc
      exact_mod_cast this
    nlinarith
  have hden : 0 < (r.sticks_needed : ℚ) * stock := by
    apply mul_pos _ hst
    exact_mod_cast bin_pack_num_pos h hc
  positivity

theorem tie_fewer_sticks {cuts : List ℚ} {kerf L1 L2 : ℚ} {r1 r2 : PackResult}
    (h1 : bin_pack_linear cuts L1 kerf = some r1)
    (h2 : bin_pack_linear cuts L2 kerf = some r2)
    (hc : cuts ≠ []) (hnn : ∀ c ∈ cuts, 0 ≤ c) (hk : 0 < kerf)
    (hL2 : 0 < L2) (hLT : L2 < L1)
    (heq : r1.efficiency = r2.efficiency) :
    r1.sticks_needed < r2.sticks_needed := by
  have hL1 : 0 < L1 := hL2.trans hLT
  have he1 := bin_pack_eff_eq h1 hc hL1
  have he2 := bin_pack_eff_eq h2 hc hL2
  have hn1 : 0 < (r1.sticks_needed : ℚ) := by
    exact_mod_cast bin_pack_num_pos h1 hc
  have hn2 : 0 < (r2.sticks_needed : ℚ) := by
    exact_mod_cast bin_pack_num_pos h2 hc
  have hT : 0 < cuts.sum + (cuts.length : ℚ) * kerf := by
    have hsum : 0 ≤ cuts.sum := List.sum_nonneg hnn
    have hlen : 0 < (cuts.length : ℚ) := by
      have : 0 < cuts.length := List.length_pos.mpr hc
      exact_mod_cast this
    nlinarith
  have hd1 : 0 < (r1.sticks_needed : ℚ) * L1 := mul_pos hn1 hL1
  have hd2 : 0 < (r2.sticks_needed : ℚ) * L2 := mul_pos hn2 hL2
  rw [he1, he2] at heq
  have heq2 : (cuts.sum + (cuts.length : ℚ) * kerf) / ((r1.sticks_needed : ℚ) * L1) =
      (cuts.sum + (cuts.length : ℚ) * kerf) / ((r2.sticks_needed : ℚ) * L2) :=
    mul_right_cancel₀ (by norm_num : (100 : ℚ) ≠ 0) heq
  have hcap : (r2.sticks_needed : ℚ) * L2 = (r1.sticks_needed : ℚ) * L1 := by
    have h3 := (div_eq_div_iff (ne_of_gt hd1) (ne_of_gt hd2)).mp heq2
    exact mul_left_cancel₀ (ne_of_gt hT) h3
  have hlt : (r1.sticks_needed : ℚ) * L1 < (r2.sticks_needed : ℚ) * L1 := by
    rw [← hcap]
    exact mul_lt_mul_of_pos_left hLT hn2
  have : (r1.sticks_needed : ℚ) < (r2.sticks_needed : ℚ) :=
    (mul_lt_mul_right hL1).mp hlt
  exact_mod_cast this

theorem bin_pack_waste_bounds {cuts : List ℚ} {stock kerf : ℚ} {r : PackResult}
    (h : bin_pack_linear cuts stock kerf = some r)
    (hnn : ∀ c ∈ cuts, 0 ≤ c) (hk : 0 ≤ kerf) :
    0 ≤ r.waste_percentage ∧ r.waste_percentage ≤ 100 := by
  have hperm := bin_pack_perm h
  have hcap := bin_pack_capacity h
  obtain ⟨sticks, hp, hn, -, hcps, -, -, hwp⟩ := bin_pack_elim h
  rw [hwp]
  by_cases havail : 0 < (sticks.length : ℚ) * stock
  · rw [if_pos havail]
    have hU : ((sticks.map Prod.snd).map List.sum).sum +
        ((sticks.map Prod.snd).map (fun l => (l.length : ℚ) * kerf)).sum =
        r.cuts_per_stick.flatten.sum +
          (r.cuts_per_stick.flatten.length : ℚ) * kerf := by
      rw [hcps, sum_sticks_split]
    have hUcap : ((sticks.map Prod.snd).map List.sum).sum +
        ((sticks.map Prod.snd).map (fun l => (l.length : ℚ) * kerf)).sum ≤
        (sticks.length : ℚ) * stock := by
      rw [hU, ← hn]
      exact hcap
    have hUnn : 0 ≤ ((sticks.map Prod.snd).map List.sum).sum +
        ((sticks.map Prod.snd).map (fun l => (l.length : ℚ) * kerf)).sum := by
      rw [hU]
      have h1 : 0 ≤ r.cuts_per_stick.flatten.sum := by
        apply List.sum_nonneg
        intro x hx
        exact hnn x (hperm.mem_iff.mp hx)
      have h2 : (0 : ℚ) ≤ (r.cuts_per_stick.flatten.length : ℚ) * kerf := by
        positivity
      linarith
    constructor
    · apply mul_nonneg _ (by norm_num : (0 : ℚ) ≤ 100)
      apply div_nonneg _ (le_of_lt havail)
      linarith
    · have hfrac : ((sticks.length : ℚ) * stock -
          ((sticks.map Prod.snd).map List.sum).sum -
          ((sticks.map Prod.snd).map (fun l => (l.length : ℚ) * kerf)).sum) /
          ((sticks.length : ℚ) * stock) ≤ 1 := by
        rw [div_le_one havail]
        linarith
      nlinarith [hfrac]
  · rw [if_neg havail]
    norm_num

theorem pick_best_pack_mem {f : ℚ → Option PackResult} :
    ∀ {stocks : List ℚ} {best : Option PackResult} {be : ℚ} {r : PackResult},
      pick_best_pack f stocks best be = some r →
      best = some r ∨ ∃ L ∈ stocks, f L = some r := by
  intro stocks
  induction stocks with
  | nil =>
    intro best be r h
    simp only [pick_best_pack] at h
    exact Or.inl h
  | cons L rest ih =>
    intro best be r h
    simp only [pick_best_pack] at h
    cases hfL : f L with
    | some s =>
      simp only [hfL] at h
      by_cases hbe : be < s.efficiency
      · rw [if_pos hbe] at h
        rcases ih h with h2 | h2
        · exact Or.inr ⟨L, List.mem_cons_self _ _, hfL ▸ h2 ▸ rfl⟩
        · obtain ⟨L2, hL2, hfL2⟩ := h2
          exact Or.inr ⟨L2, List.mem_cons_of_mem _ hL2, hfL2⟩
      · rw [if_neg hbe] at h
        rcases ih h with h2 | h2
        · exact Or.inl h2
        · obtain ⟨L2, hL2, hfL2⟩ := h2
          exact Or.inr ⟨L2, List.mem_cons_of_mem _ hL2, hfL2⟩
    | none =>
      simp only [hfL] at h
      rcases ih h with h2 | h2
      · exact Or.inl h2
      · obtain ⟨L2, hL2, hfL2⟩ := h2
        exact Or.inr ⟨L2, List.mem_cons_of_mem _ hL2, hfL2⟩

theorem pick_best_pack_none {f : ℚ → Option PackResult} :
    ∀ {stocks : List ℚ} {best : Option PackResult} {be : ℚ},
      (∀ L ∈ stocks, f L = none) →
      pick_best_pack f stocks best be = best := by
  intro stocks
  induction stocks with
  | nil => intro best be _; rfl
  | cons L rest ih =>
    intro best be hall
    simp only [pick_best_pack, hall L (List.mem_cons_self _ _)]
    exact ih (fun L2 hL2 => hall L2 (List.mem_cons_of_mem _ hL2))

theorem pick_best_pack_isSome {f : ℚ → Option PackResult} :
    ∀ {stocks : List ℚ} {r0 : PackResult} {be : ℚ},
      (pick_best_pack f stocks (some r0) be).isSome := by
  intro stocks
  induction stocks with
  | nil => intro r0 be; rfl
  | cons L rest ih =>
    intro r0 be
    simp only [pick_best_pack]
    cases f L with
    | some s =>
      dsimp only
      by_cases hbe : be < s.efficiency
      · rw [if_pos hbe]; exact ih
      · rw [if_neg hbe]; exact ih
    | none => exact ih

theorem pick_best_pack_some {f : ℚ → Option PackResult} :
    ∀ {stocks : List ℚ},
      (∃ L ∈ stocks, ∃ s, f L = some s ∧ 0 < s.efficiency) →
      (pick_best_pack f stocks none 0).isSome := by
  intro stocks
  induction stocks with
  | nil => rintro ⟨L, hL, -⟩; exact absurd hL (List.not_mem_nil L)
  | cons L rest ih =>
    rintro ⟨L2, hL2, s2, hfs2, hpos2⟩
    simp only [pick_best_pack]
    cases hfL : f L with
    | some s =>
      dsimp only
      by_cases hbe : (0 : ℚ) < s.efficiency
      · rw [if_pos hbe]; exact pick_best_pack_isSome
      · rw [if_neg hbe]
        rcases List.mem_cons.mp hL2 with rfl | hL2'
        · rw [hfL] at hfs2
          cases hfs2
          exact absurd hpos2 hbe
        · exact ih ⟨L2, hL2', s2, hfs2, hpos2⟩
    | none =>
      rcases List.mem_cons.mp hL2 with rfl | hL2'
      · rw [hfL] at hfs2; cases hfs2
      · exact ih ⟨L2, hL2', s2, hfs2, hpos2⟩

theorem pick_best_pack_opt {cuts : List ℚ} {kerf : ℚ}
    (hc : cuts ≠ []) (hnn : ∀ c ∈ cuts, 0 ≤ c) (hk : 0 < kerf) :
    ∀ (stocks : List ℚ) (best : Option PackResult) (be : ℚ),
      (∀ L ∈ stocks, 0 < L) →
      stocks.Pairwise (fun a b => b < a) →
      (∀ r, best = some r → be = r.efficiency ∧ 0 < r.stock_length ∧
        bin_pack_linear cuts r.stock_length kerf = some r ∧
        ∀ L ∈ stocks, L < r.stock_length) →
      (best = none → be = 0) →
      ∀ rOut, pick_best_pack (fun L => bin_pack_linear cuts L kerf) stocks best be =
          some rOut →
        (bin_pack_linear cuts rOut.stock_length kerf = some rOut ∧
          0 < rOut.stock_length) ∧
        (∀ r, best = some r → r.efficiency ≤ rOut.efficiency ∧
          (r.efficiency = rOut.efficiency →
            rOut.sticks_needed ≤ r.sticks_needed)) ∧
        (∀ L ∈ stocks, ∀ s, bin_pack_linear cuts L kerf = some s →
          s.efficiency ≤ rOut.efficiency ∧
          (s.efficiency = rOut.efficiency →
            rOut.sticks_needed ≤ s.sticks_needed)) := by
  intro stocks
  induction stocks with
  | nil =>
    intro best be hpos hpair hbest hnone rOut h
    simp only [pick_best_pack] at h
    obtain ⟨hbe_eq, hstock_pos, hpack, -⟩ := hbest rOut h
    refine ⟨⟨hpack, hstock_pos⟩, ?_, ?_⟩
    · intro r hr
      rw [h] at hr
      cases hr
      exact ⟨le_refl _, fun _ => le_refl _⟩
    · intro L hL
      exact absurd hL (List.not_mem_nil L)
  | cons L rest ih =>
    intro best be hpos hpair hbest hnone rOut h
    obtain ⟨hheadlt, hpair'⟩ := List.pairwise_cons.mp hpair
    have hpos' : ∀ L2 ∈ rest, 0 < L2 :=
      fun L2 hL2 => hpos L2 (List.mem_cons_of_mem _ hL2)
    have hLpos : 0 < L := hpos L (List.mem_cons_self _ _)
    simp only [pick_best_pack] at h
    cases hfL : bin_pack_linear cuts L kerf with
    | none =>
      simp only [hfL] at h
      have hbest' : ∀ r, best = some r → be = r.efficiency ∧
          0 < r.stock_length ∧
          bin_pack_linear cuts r.stock_length kerf = some r ∧
          ∀ L2 ∈ rest, L2 < r.stock_length := by
        intro r hr
        obtain ⟨h1, h2, h3, h4⟩ := hbest r hr
        exact ⟨h1, h2, h3, fun L2 hL2 => h4 L2 (List.mem_cons_of_mem _ hL2)⟩
      obtain ⟨hself, hbestc, hstocksc⟩ :=
        ih best be hpos' hpair' hbest' hnone rOut h
      refine ⟨hself, hbestc, ?_⟩
      intro L2 hL2 s hfs
      rcases List.mem_cons.mp hL2 with rfl | hL2'
      · rw [hfL] at hfs; cases hfs
      · exact hstocksc L2 hL2' s hfs
    | some s =>
      simp only [hfL] at h
      have hsL : s.stock_length = L := bin_pack_stock_eq hfL
      by_cases hbe : be < s.efficiency
      · rw [if_pos hbe] at h
        have hbest_s : ∀ r, some s = some r → s.efficiency = r.efficiency ∧
            0 < r.stock_length ∧
            bin_pack_linear cuts r.stock_length kerf = some r ∧
            ∀ L2 ∈ rest, L2 < r.stock_length := by
          intro r hr
          cases hr
          refine ⟨rfl, hsL ▸ hLpos, ?_, ?_⟩
          · rw [hsL]; exact hfL
          · intro L2 hL2
            rw [hsL]
            exact hheadlt L2 hL2
        obtain ⟨hself, hbestc, hstocksc⟩ :=
          ih (some s) s.efficiency hpos' hpair' hbest_s
            (fun hx => absurd hx (Option.some_ne_none s)) rOut h
        have hs_le : s.efficiency ≤ rOut.efficiency := (hbestc s rfl).1
        refine ⟨hself, ?_, ?_⟩
        · intro r hr
          obtain ⟨hbe_eq, -, -, -⟩ := hbest r hr
          constructor
          · linarith [hbe_eq ▸ hbe]
          · intro htie
            exfalso
            have : be < rOut.efficiency := lt_of_lt_of_le hbe hs_le
            rw [hbe_eq] at this
            linarith
        · intro L2 hL2 s2 hfs2
          rcases List.mem_cons.mp hL2 with rfl | hL2'
          · rw [hfL] at hfs2
            cases hfs2
            exact hbestc _ rfl
          · exact hstocksc L2 hL2' s2 hfs2
      · rw [if_neg hbe] at h
        push_neg at hbe
        have hbest' : ∀ r, best = some r → be = r.efficiency ∧
            0 < r.stock_length ∧
            bin_pack_linear cuts r.stock_length kerf = some r ∧
            ∀ L2 ∈ rest, L2 < r.stock_length := by
          intro r hr
          obtain ⟨h1, h2, h3, h4⟩ := hbest r hr
          exact ⟨h1, h2, h3, fun L2 hL2 => h4 L2 (List.mem_cons_of_mem _ hL2)⟩
        obtain ⟨hself, hbestc, hstocksc⟩ :=
          ih best be hpos' hpair' hbest' hnone rOut h
        refine ⟨hself, hbestc, ?_⟩
        intro L2 hL2 s2 hfs2
        rcases List.mem_cons.mp hL2 with rfl | hL2'
        · rw [hfL] at hfs2
          cases hfs2
          cases hbest_case : best with
          | none =>
            have hbe0 := hnone hbest_case
            have hpos_eff := bin_pack_eff_pos hfL hc hnn hk hLpos
            exfalso
            rw [hbe0] at hbe
            linarith
          | some r =>
            obtain ⟨hbe_eq, hrstock_pos, hr_pack, hrge⟩ := hbest r hbest_case
            have hr_concl := hbestc r hbest_case
            have hs_le_r : s.efficiency ≤ r.efficiency := by
              rw [← hbe_eq]; exact hbe
            constructor
            · exact le_trans hs_le_r hr_concl.1
            · intro htie
              have hr_eq : r.efficiency = rOut.efficiency :=
                le_antisymm hr_concl.1 (by linarith)
              have hbins_r : rOut.sticks_needed ≤ r.sticks_needed :=
                hr_concl.2 hr_eq
              have hrs : r.efficiency = s.efficiency := by linarith
              have hLlt : L2 < r.stock_length :=
                hrge L2 (List.mem_cons_self _ _)
              have hbins_rs : r.sticks_needed < s.sticks_needed :=
                tie_fewer_sticks hr_pack hfL hc hnn hk hLpos hLlt hrs
              omega
        · exact hstocksc L2 hL2' s2 hfs2

theorem pack_cuts_total {stock kerf : ℚ} :
    ∀ {cuts : List ℚ}, (∀ c ∈ cuts, c + kerf ≤ stock) →
      ∀ sticks, (pack_cuts stock kerf cuts sticks).isSome := by
  intro cuts
  induction cuts with
  | nil => intro _ sticks; rfl
  | cons cut more ih =>
    intro hfit sticks
    have hhd : cut + kerf ≤ stock := hfit cut (List.mem_cons_self _ _)
    have htl : ∀ c ∈ more, c + kerf ≤ stock :=
      fun c hcm => hfit c (List.mem_cons_of_mem _ hcm)
    simp only [pack_cuts]
    cases place_first (cut + kerf) cut sticks with
    | some sticks2 => exact ih htl sticks2
    | none =>
      rw [if_neg (not_lt.mpr hhd)]
      exact ih htl _

theorem place_first_none {req stock kerf : ℚ} {cut : ℚ} :
    ∀ {sticks : List Stick},
      (∀ st ∈ sticks, stick_ok stock kerf st) → sticks_nn sticks →
      0 ≤ kerf → stock < req →
      place_first req cut sticks = none := by
  intro sticks
  induction sticks with
  | nil => intro _ _ _ _; rfl
  | cons hd tl ih =>
    intro hok hnn hk hlt
    obtain ⟨h0, heq⟩ := hok hd (List.mem_cons_self _ _)
    have hsum : 0 ≤ hd.2.sum := by
      apply List.sum_nonneg
      exact hnn hd (List.mem_cons_self _ _)
    have hrem_le : hd.1 ≤ stock := by
      rw [heq]
      have : (0 : ℚ) ≤ (hd.2.length : ℚ) * kerf := by positivity
      linarith
    have hnofit : ¬ req ≤ hd.1 := by
      intro hcontra
      linarith
    obtain ⟨rem, cs⟩ := hd
    simp only [place_first, if_neg hnofit]
    rw [ih (fun st hst => hok st (List.mem_cons_of_mem _ hst))
      (fun st hst => hnn st (List.mem_cons_of_mem _ hst)) hk hlt]
    rfl

theorem place_first_nn {req cut : ℚ} :
    ∀ {sticks out : List Stick},
      place_first req cut sticks = some out → sticks_nn sticks → 0 ≤ cut →
      sticks_nn out := by
  intro sticks
  induction sticks with
  | nil => intro out h; simp [place_first] at h
  | cons hd tl ih =>
    intro out h hnn hcut
    obtain ⟨rem, cs⟩ := hd
    by_cases hfits : req ≤ rem
    · simp only [place_first, if_pos hfits, Option.some.injEq] at h
      subst h
      intro st hst
      rcases List.mem_cons.mp hst with rfl | hst
      · intro x hx
        rcases List.mem_append.mp hx with hx | hx
        · exact hnn (rem, cs) (List.mem_cons_self _ _) x hx
        · simp only [List.mem_singleton] at hx
          exact hx ▸ hcut
      · exact hnn st (List.mem_cons_of_mem _ hst)
    · simp only [place_first, if_neg hfits, Option.map_eq_some'] at h
      obtain ⟨out', hout', rfl⟩ := h
      intro st hst
      rcases List.mem_cons.mp hst with rfl | hst
      · exact hnn (rem, cs) (List.mem_cons_self _ _)
      · exact ih hout'
          (fun st' hst' => hnn st' (List.mem_cons_of_mem _ hst')) hcut st hst

theorem pack_cuts_fail {stock kerf : ℚ} :
    ∀ {cuts : List ℚ} {sticks : List Stick},
      (∀ c ∈ cuts, 0 ≤ c) → 0 ≤ kerf →
      (∃ c ∈ cuts, stock < c + kerf) →
      (∀ st ∈ sticks, stick_ok stock kerf st) → sticks_nn sticks →
      pack_cuts stock kerf cuts sticks = none := by
  intro cuts
  induction cuts with
  | nil =>
    rintro sticks _ _ ⟨c, hc, -⟩
    exact absurd hc (List.not_mem_nil c)
  | cons cut more ih =>
    rintro sticks hnn hk ⟨c, hc, hclong⟩ hok hsnn
    have hcut0 : 0 ≤ cut := hnn cut (List.mem_cons_self _ _)
    have hnn' : ∀ c2 ∈ more, 0 ≤ c2 :=
      fun c2 hc2 => hnn c2 (List.mem_cons_of_mem _ hc2)
    simp only [pack_cuts]
    by_cases hlong : stock < cut + kerf
    · rw [place_first_none hok hsnn hk hlong]
      simp [if_pos hlong]
    · have hcm : c ∈ more := by
        rcases List.mem_cons.mp hc with rfl | hcm
        · exact absurd hclong hlong
        · exact hcm
      cases hplace : place_first (cut + kerf) cut sticks with
      | some sticks2 =>
        exact ih hnn' hk ⟨c, hcm, hclong⟩ (place_first_ok hplace hok)
          (place_first_nn hplace hsnn hcut0)
      | none =>
        rw [if_neg hlong]
        apply ih hnn' hk ⟨c, hcm, hclong⟩
        · intro st hst
          rcases List.mem_append.mp hst with hst | hst
          · exact hok st hst
          · simp only [List.mem_singleton] at hst
            subst hst
            exact ⟨by simpa using not_lt.mp hlong, by simp⟩
        · intro st hst
          rcases List.mem_append.mp hst with hst | hst
          · exact hsnn st hst
          · simp only [List.mem_singleton] at hst
            subst hst
            intro x hx
            simp only [List.mem_singleton] at hx
            exact hx ▸ hcut0

theorem bin_pack_total {cuts : List ℚ} {stock kerf : ℚ}
    (hfit : ∀ c ∈ cuts, c + kerf ≤ stock) :
    (bin_pack_linear cuts stock kerf).isSome := by
  unfold bin_pack_linear
  have := pack_cuts_total hfit ([] : List Stick)
  cases hp : pack_cuts stock kerf cuts [] with
  | some sticks => rfl
  | none => rw [hp] at this; cases this

theorem bin_pack_none {cuts : List ℚ} {stock kerf : ℚ}
    (hnn : ∀ c ∈ cuts, 0 ≤ c) (hk : 0 ≤ kerf)
    (hover : ∃ c ∈ cuts, stock < c + kerf) :
    bin_pack_linear cuts stock kerf = none := by
  unfold bin_pack_linear
  rw [pack_cuts_fail hnn hk hover (by simp) (by simp [sticks_nn])]
  rfl

theorem kerf_of_linear : kerf_of "linear" = 0.125 := rfl

theorem kerf_of_structural : kerf_of "structural" = 0.25 := rfl

theorem kerf_of_nonneg (cat : String) : 0 ≤ kerf_of cat := by
  unfold kerf_of get_cat_params_or_linear optimization_params
  simp only [List.find?]
  repeat' split <;> norm_num

theorem kerf_of_pos (cat : String) : 0 < kerf_of cat := by
  unfold kerf_of get_cat_params_or_linear optimization_params
  simp only [List.find?]
  repeat' split <;> norm_num

theorem stock_lengths_pos : ∀ L ∈ standard_stock_lengths, (0 : ℚ) < L := by
  intro L hL
  fin_cases hL <;> norm_num

theorem stock_lengths_desc :
    standard_stock_lengths.Pairwise (fun a b => b < a) := by
  simp only [standard_stock_lengths, List.pairwise_cons, List.mem_cons,
    List.mem_singleton, List.not_mem_nil, List.Pairwise.nil]
  norm_num

theorem stock_lengths_le : ∀ L ∈ standard_stock_lengths, L ≤ (720 : ℚ) := by
  intro L hL
  fin_cases hL <;> norm_num

theorem mem_stock_720 : (720 : ℚ) ∈ standard_stock_lengths := by
  simp [standard_stock_lengths]

theorem optimize_linear_cuts_elim {k : String} {cuts : List ℚ} {cat : String}
    {p : MaterialPurchase} (h : optimize_linear_cuts k cuts cat = some p) :
    cuts ≠ [] ∧ ∃ r,
      pick_best_pack (fun L => bin_pack_linear (sort_desc cuts) L (kerf_of cat))
        standard_stock_lengths none 0 = some r ∧
      p.pieces_needed = (r.sticks_needed : ℤ) ∧
      p.stock_length = r.stock_length ∧
      p.waste_percentage = r.waste_percentage ∧
      p.cuts_per_stick = r.cuts_per_stick ∧
      p.utilization_percentage = r.efficiency := by
  by_cases hcE : cuts = []
  · simp [optimize_linear_cuts, hcE] at h
  · refine ⟨hcE, ?_⟩
    simp only [optimize_linear_cuts, if_neg hcE] at h
    cases hpick : pick_best_pack
        (fun L => bin_pack_linear (sort_desc cuts) L (kerf_of cat))
        standard_stock_lengths none 0 with
    | none => rw [hpick] at h; cases h
    | some r =>
      rw [hpick] at h
      simp only [Option.some.injEq] at h
      subst h
      exact ⟨r, rfl, rfl, rfl, rfl, rfl, rfl⟩

theorem optimize_linear_cuts_none_of_oversized {k : String} {cuts : List ℚ}
    (hnn : ∀ c ∈ cuts, 0 ≤ c)
    (hover : ∃ c ∈ cuts, (720 : ℚ) < c + kerf_of "linear") :
    optimize_linear_cuts k cuts "linear" = none := by
  by_cases hcE : cuts = []
  · simp [optimize_linear_cuts, hcE]
  · simp only [optimize_linear_cuts, if_neg hcE]
    have hall : ∀ L ∈ standard_stock_lengths,
        bin_pack_linear (sort_desc cuts) L (kerf_of "linear") = none := by
      intro L hL
      apply bin_pack_none
      · intro c hcm
        exact hnn c ((sort_desc_perm cuts).mem_iff.mp hcm)
      · exact kerf_of_nonneg "linear"
      · obtain ⟨c, hcm, hclong⟩ := hover
        refine ⟨c, (sort_desc_perm cuts).mem_iff.mpr hcm, ?_⟩
        have hle := stock_lengths_le L hL
        linarith
    rw [pick_best_pack_none hall]

/-- C10: for every input cut list and every stock length for which the
linear bin packing succeeds, the multiset of lengths recorded across
`cuts_per_stick` equals the multiset of input cut lengths — no cut is
dropped or duplicated. -/
theorem bin_pack_conserves_cuts {cuts : List ℚ} {stock kerf : ℚ}
    {r : PackResult} (h : bin_pack_linear cuts stock kerf = some r) :
    Multiset.ofList r.cuts_per_stick.flatten = Multiset.ofList cuts :=
  Multiset.coe_eq_coe.mpr (bin_pack_perm h)

theorem bin_pack_conserves_cuts_witness :
    ∃ r, bin_pack_linear [100, 200] 720 0.125 = some r ∧
      Multiset.ofList r.cuts_per_stick.flatten = Multiset.ofList [100, 200] := by
  have h : bin_pack_linear [(100 : ℚ), 200] 720 0.125 =
      some { sticks_needed := 1
             stock_length := 720
             efficiency := (300 + 2 * 0.125) / 720 * 100
             waste_percentage := (720 - 300 - 2 * 0.125) / 720 * 100
             total_waste := 720 - 300 - 2 * 0.125
             cuts_per_stick := [[100, 200]] } := by
    norm_num [bin_pack_linear, pack_cuts, place_first]
  exact ⟨_, h, bin_pack_conserves_cuts h⟩

/-- C1 (amended): every purchase returned by the comprehensive service's
linear optimizer satisfies the capacity invariant
`pieces_needed × stockLength ≥ Σ(assigned cut lengths) + Σ(kerf per cut)`;
the assigned cuts are those recorded in `cuts_per_stick`, with the kerf of
the optimized category.  (The simple service's optimizer violates the
invariant for an oversized cut — see the counterexample.) -/
theorem linear_purchase_capacity_bound {k cat : String} {cuts : List ℚ}
    {p : MaterialPurchase} (h : optimize_linear_cuts k cuts cat = some p) :
    p.cuts_per_stick.flatten.sum +
      (p.cuts_per_stick.flatten.length : ℚ) * kerf_of cat ≤
    (p.pieces_needed : ℚ) * p.stock_length := by
  obtain ⟨hcE, r, hpick, hpn, hsl, hwp, hcps, hu⟩ := optimize_linear_cuts_elim h
  rcases pick_best_pack_mem hpick with hbad | ⟨L, hL, hfL⟩
  · cases hbad
  · have hstock := bin_pack_stock_eq hfL
    have hcap := bin_pack_capacity hfL
    rw [hcps, hpn, hsl, hstock]
    push_cast
    exact_mod_cast hcap

theorem linear_purchase_capacity_bound_witness :
    ∃ p, optimize_linear_cuts "PIPE2" [100] "linear" = some p ∧
      p.cuts_per_stick.flatten.sum +
        (p.cuts_per_stick.flatten.length : ℚ) * kerf_of "linear" ≤
      (p.pieces_needed : ℚ) * p.stock_length := by
  have hk : kerf_of "linear" = 0.125 := rfl
  have hp : str_has (up_str "PIPE2") "PIPE" = true := by decide
  have ht : toString ((10 : ℤ)) = "10" := by decide
  have hsome : optimize_linear_cuts "PIPE2" [(100 : ℚ)] "linear" =
      some { shape_key := "PIPE2"
             size_description := "10\x27 sticks"
             pieces_needed := 1
             total_cost := 120
             waste_percentage := (120 - (100 + 0.125)) / 120 * 100
             material_category := "linear"
             waste_cost := (120 - (100 + 0.125)) / 120 * 120
             stock_length := 120
             cuts_per_stick := [[100]]
             cuts_from_this_size := [100]
             utilization_percentage := (100 + 0.125) / 120 * 100
             optimization_notes := ["Optimized using 10\x27 stock lengths"] } := by
    norm_num [optimize_linear_cuts, hk, sort_desc, insert_desc, pick_best_pack,
      bin_pack_linear, pack_cuts, place_first, standard_stock_lengths,
      estimate_linear_cost, hp, fmt_f0, round_eq, ht]
    exact ⟨by decide, by decide⟩
  exact ⟨_, hsome, linear_purchase_capacity_bound hsome⟩

theorem simple_linear_capacity_violation :
    ∃ p, simple_optimize_linear_material "W8" [800] = some p ∧
      p.cuts_per_stick = [[800]] ∧ p.stock_length = 720 ∧
      p.pieces_needed = 1 ∧
      (p.pieces_needed : ℚ) * p.stock_length < p.cuts_per_stick.flatten.sum := by
  refine ⟨_, rfl, ?_, ?_, ?_, ?_⟩ <;>
    norm_num [simple_optimize_linear_material, sort_desc, insert_desc,
      simple_pack, place_first]

/-- C3: when every cut fits the largest candidate stock length, the linear
optimizer returns a purchase whose stock length is a feasible candidate,
whose utilization is maximal among all feasible candidates, and which, on
equal utilization, needs no more sticks than any other feasible
candidate. -/
theorem linear_selects_max_utilization_fewest_sticks
    (k : String) (cuts : List ℚ) (hcE : cuts ≠ [])
    (hnn : ∀ c ∈ cuts, 0 ≤ c)
    (hfit : ∀ c ∈ cuts, c + kerf_of "linear" ≤ 720) :
    ∃ p, optimize_linear_cuts k cuts "linear" = some p ∧
      p.stock_length ∈ standard_stock_lengths ∧
      (bin_pack_linear (sort_desc cuts) p.stock_length (kerf_of "linear")).isSome ∧
      ∀ L ∈ standard_stock_lengths, ∀ s,
        bin_pack_linear (sort_desc cuts) L (kerf_of "linear") = some s →
        s.efficiency ≤ p.utilization_percentage ∧
        (s.efficiency = p.utilization_percentage →
          p.pieces_needed ≤ (s.sticks_needed : ℤ)) := by
  have hperm := sort_desc_perm cuts
  have hsnn : ∀ c ∈ sort_desc cuts, 0 ≤ c :=
    fun c hcm => hnn c (hperm.mem_iff.mp hcm)
  have hsE : sort_desc cuts ≠ [] := by
    intro hcontra
    apply hcE
    have := hperm.length_eq
    rw [hcontra] at this
    exact List.length_eq_zero.mp this.symm
  have hsfit : ∀ c ∈ sort_desc cuts, c + kerf_of "linear" ≤ 720 :=
    fun c hcm => hfit c (hperm.mem_iff.mp hcm)
  obtain ⟨s720, hs720⟩ := Option.isSome_iff_exists.mp (bin_pack_total hsfit)
  have heffpos := bin_pack_eff_pos hs720 hsE hsnn (kerf_of_pos "linear")
    (by norm_num)
  obtain ⟨r, hr⟩ := Option.isSome_iff_exists.mp
    (@pick_best_pack_some
      (fun L => bin_pack_linear (sort_desc cuts) L (kerf_of "linear"))
      standard_stock_lengths ⟨720, mem_stock_720, s720, hs720, heffpos⟩)
  have hopt : optimize_linear_cuts k cuts "linear" =
      some { shape_key := k
             size_description :=
               fmt_f0 (r.stock_length / 12) ++ "\x27 sticks"
             pieces_needed := (r.sticks_needed : ℤ)
             total_cost := (r.sticks_needed : ℚ) *
               estimate_linear_cost k r.stock_length
             waste_percentage := r.waste_percentage
             material_category := "linear"
             waste_cost := r.total_waste / r.stock_length *
               estimate_linear_cost k r.stock_length
             stock_length := r.stock_length
             cuts_per_stick := r.cuts_per_stick
             cuts_from_this_size := cuts
             utilization_percentage := r.efficiency
             optimization_notes :=
               ["Optimized using " ++ fmt_f0 (r.stock_length / 12) ++
                "\x27 stock lengths"] } := by
    simp only [optimize_linear_cuts, if_neg hcE, hr]
  obtain ⟨⟨hself_pack, hself_pos⟩, -, hstocks⟩ :=
    pick_best_pack_opt hsE hsnn (kerf_of_pos "linear")
      standard_stock_lengths none 0 stock_lengths_pos stock_lengths_desc
      (fun r2 hr2 => absurd hr2 (by simp)) (fun _ => rfl) r hr
  refine ⟨_, hopt, ?_, ?_, ?_⟩
  · rcases pick_best_pack_mem hr with hbad | ⟨L, hL, hfL⟩
    · cases hbad
    · have := bin_pack_stock_eq hfL
      simpa [this] using hL
  · simp only
    rw [hself_pack]
    rfl
  · intro L hL s hfs
    obtain ⟨h1, h2⟩ := hstocks L hL s hfs
    constructor
    · exact h1
    · intro htie
      have htie2 : s.efficiency = r.efficiency := htie
      show (r.sticks_needed : ℤ) ≤ (s.sticks_needed : ℤ)
      exact_mod_cast h2 htie2

theorem linear_selects_max_utilization_fewest_sticks_witness :
    ∃ p, optimize_linear_cuts "W12X26" [150, 150, 150, 150, 150] "linear" =
        some p ∧
      p.stock_length ∈ standard_stock_lengths ∧
      (bin_pack_linear (sort_desc [150, 150, 150, 150, 150]) p.stock_length
        (kerf_of "linear")).isSome ∧
      ∀ L ∈ standard_stock_lengths, ∀ s,
        bin_pack_linear (sort_desc [150, 150, 150, 150, 150]) L
          (kerf_of "linear") = some s →
        s.efficiency ≤ p.utilization_percentage ∧
        (s.efficiency = p.utilization_percentage →
          p.pieces_needed ≤ (s.sticks_needed : ℤ)) :=
  linear_selects_max_utilization_fewest_sticks "W12X26"
    [150, 150, 150, 150, 150] (by simp) (by norm_num)
    (by norm_num [kerf_of_linear])

/-- C4 (amended): when a required linear cut exceeds every candidate stock
length, the comprehensive service records no error and no note: the
group's optimizer returns `None`, the group is silently dropped from the
purchase list, and the remaining groups are still optimized (the run is
not aborted). -/
theorem infeasible_linear_group_skipped (k : String)
    (specs : List MaterialSpec) (rest : List (String × List MaterialSpec))
    (hnn : ∀ c ∈ cuts_of_specs specs, 0 ≤ c)
    (hover : ∃ c ∈ cuts_of_specs specs, (720 : ℚ) < c + kerf_of "linear") :
    optimize_linear_materials ((k, specs) :: rest) =
    optimize_linear_materials rest := by
  unfold optimize_linear_materials
  rw [List.filterMap_cons]
  simp only [optimize_linear_cuts_none_of_oversized hnn hover]

theorem infeasible_linear_group_skipped_witness :
    optimize_linear_materials
      [("TUBE9", [{ shape_key := "TUBE9", category := "linear",
                    length := 800, quantity := 1 }]),
       ("PIPE2", [{ shape_key := "PIPE2", category := "linear",
                    length := 100, quantity := 1 }])] =
    optimize_linear_materials
      [("PIPE2", [{ shape_key := "PIPE2", category := "linear",
                    length := 100, quantity := 1 }])] :=
  infeasible_linear_group_skipped "TUBE9" _ _
    (by norm_num [cuts_of_specs, List.replicate_one, Int.toNat_one])
    (by
      refine ⟨800, ?_, by norm_num [kerf_of_linear]⟩
      norm_num [cuts_of_specs, List.replicate_one, Int.toNat_one])

theorem clean_run_infeasible_eval :
    optimize_project_materials
      [{ shape_key := "TUBE1", qty := 1, length_in := 800 },
       { shape_key := "PIPE2", qty := 1, length_in := 100 }] =
    { material_purchases :=
        [{ shape_key := "PIPE2"
           size_description := "10\x27 sticks"
           pieces_needed := 1
           total_cost := 120
           waste_percentage := (120 - (100 + 0.125)) / 120 * 100
           material_category := "linear"
           waste_cost := (120 - (100 + 0.125)) / 120 * 120
           stock_length := 120
           cuts_per_stick := [[100]]
           cuts_from_this_size := [100]
           utilization_percentage := (100 + 0.125) / 120 * 100
           optimization_notes := ["Optimized using 10\x27 stock lengths"] }]
      total_waste_percentage := (120 - (100 + 0.125)) / 120 * 100
      total_cost := 120
      cost_savings := 120 / 0.85 - 120
      optimization_summary := "Optimized 1 total materials: 1 linear" } := by
  have hk : kerf_of "linear" = 0.125 := rfl
  have hc1 : determine_material_category "TUBE1" = "linear" := by decide
  have hc2 : determine_material_category "PIPE2" = "linear" := by decide
  have he1 : entry_shape_key
      { shape_key := "TUBE1", qty := 1, length_in := 800 } = "TUBE1" := by decide
  have he2 : entry_shape_key
      { shape_key := "PIPE2", qty := 1, length_in := 100 } = "PIPE2" := by decide
  have hp : str_has (up_str "PIPE2") "PIPE" = true := by decide
  have ht : toString ((10 : ℤ)) = "10" := by decide
  have hg : build_groups
      [{ shape_key := "TUBE1", qty := 1, length_in := 800 },
       { shape_key := "PIPE2", qty := 1, length_in := 100 }] =
      { linear :=
          [("TUBE1", [{ shape_key := "TUBE1", category := "linear",
                        length := 800, quantity := 1 }]),
           ("PIPE2", [{ shape_key := "PIPE2", category := "linear",
                        length := 100, quantity := 1 }])] } := by
    norm_num [build_groups, categorize_and_process_entry, he1, he2, hc1, hc2,
      spec_of_entry, dict_add]
    simp
  have hnone : optimize_linear_cuts "TUBE1" [(800 : ℚ)] "linear" = none := by
    norm_num [optimize_linear_cuts, hk, sort_desc, insert_desc, pick_best_pack,
      bin_pack_linear, pack_cuts, place_first, standard_stock_lengths]
  have hsome : optimize_linear_cuts "PIPE2" [(100 : ℚ)] "linear" =
      some { shape_key := "PIPE2"
             size_description := "10\x27 sticks"
             pieces_needed := 1
             total_cost := 120
             waste_percentage := (120 - (100 + 0.125)) / 120 * 100
             material_category := "linear"
             waste_cost := (120 - (100 + 0.125)) / 120 * 120
             stock_length := 120
             cuts_per_stick := [[100]]
             cuts_from_this_size := [100]
             utilization_percentage := (100 + 0.125) / 120 * 100
             optimization_notes := ["Optimized using 10\x27 stock lengths"] } := by
    norm_num [optimize_linear_cuts, hk, sort_desc, insert_desc, pick_best_pack,
      bin_pack_linear, pack_cuts, place_first, standard_stock_lengths,
      estimate_linear_cost, hp, fmt_f0, round_eq, ht]
    exact ⟨by decide, by decide⟩
  have ht1 : toString ((1 : ℕ)) = "1" := by decide
  unfold optimize_project_materials
  rw [hg]
  simp only [optimize_linear_materials, optimize_sheet_materials,
    optimize_grating_materials, optimize_frp_materials,
    optimize_hardware_materials, optimize_structural_materials,
    optimize_general_materials, List.filterMap_cons, List.filterMap_nil,
    List.map_nil, List.map_cons, cuts_of_specs, List.flatMap_cons,
    List.flatMap_nil, Int.toNat_one, List.replicate_one, List.append_nil,
    List.nil_append, hnone, hsome]
  norm_num [category_counts, bump_count, ht1, String.intercalate,
    String.intercalate.go]
  decide

/-- C4 is corrected by this counterexample: on a batch holding an
infeasible 800-inch TUBE1 cut and a feasible PIPE2 cut, the comprehensive
service returns a result with no purchase for TUBE1 and no note (on any
purchase, or in the summary) mentioning TUBE1 — no `InfeasibleCutError`
exists in the code and nothing is recorded for the shape key. -/
theorem infeasible_cut_not_reported :
    ((optimize_project_materials
        [{ shape_key := "TUBE1", qty := 1, length_in := 800 },
         { shape_key := "PIPE2", qty := 1, length_in := 100 }]).material_purchases.map
        MaterialPurchase.shape_key = ["PIPE2"]) ∧
    (∀ p ∈ (optimize_project_materials
        [{ shape_key := "TUBE1", qty := 1, length_in := 800 },
         { shape_key := "PIPE2", qty := 1, length_in := 100 }]).material_purchases,
      ∀ note ∈ p.optimization_notes, str_has note "TUBE1" = false) ∧
    str_has (optimize_project_materials
        [{ shape_key := "TUBE1", qty := 1, length_in := 800 },
         { shape_key := "PIPE2", qty := 1, length_in := 100 }]).optimization_summary
      "TUBE1" = false := by
  rw [clean_run_infeasible_eval]
  refine ⟨by simp, ?_, by decide⟩
  intro p hp note hnote
  simp only [List.mem_singleton] at hp
  subst hp
  simp only [List.mem_singleton] at hnote
  subst hnote
  decide

theorem ch_pre_iff : ∀ (pat s : List Char), ch_pre pat s = true ↔ ∃ t, s = pat ++ t := by
  intro pat
  induction pat with
  | nil => intro s; simp [ch_pre]
  | cons a as ih =>
    intro s
    cases s with
    | nil =>
      simp [ch_pre]
    | cons b bs =>
      simp only [ch_pre, Bool.and_eq_true, beq_iff_eq]
      constructor
      · rintro ⟨rfl, h⟩
        obtain ⟨t, rfl⟩ := (ih bs).mp h
        exact ⟨t, rfl⟩
      · rintro ⟨t, h⟩
        rw [List.cons_append] at h
        injection h with h1 h2
        exact ⟨h1.symm, (ih bs).mpr ⟨t, h2⟩⟩

theorem ch_sub_iff : ∀ (s pat : List Char),
    ch_sub pat s = true ↔ ∃ l t, s = l ++ pat ++ t := by
  intro s
  induction s with
  | nil =>
    intro pat
    simp only [ch_sub, ch_pre_iff]
    constructor
    · rintro ⟨t, h⟩
      exact ⟨[], t, by simpa using h⟩
    · rintro ⟨l, t, h⟩
      rcases List.append_eq_nil.mp ((List.append_assoc l pat t) ▸ h).symm
        with ⟨rfl, h2⟩
      exact ⟨t, by simpa using h⟩
  | cons c rest ih =>
    intro pat
    simp only [ch_sub, Bool.or_eq_true, ch_pre_iff, ih]
    constructor
    · rintro (⟨t, h⟩ | ⟨l, t, h⟩)
      · exact ⟨[], t, by simpa using h⟩
      · exact ⟨c :: l, t, by simp [h]⟩
    · rintro ⟨l, t, h⟩
      cases l with
      | nil =>
        left
        exact ⟨t, by simpa using h⟩
      | cons x xs =>
        right
        rw [List.cons_append, List.cons_append] at h
        injection h with h1 h2
        exact ⟨xs, t, h2⟩

theorem str_has_trans {s p q : String} (h1 : str_has s p = true)
    (h2 : str_has p q = true) : str_has s q = true := by
  unfold str_has at h1 h2 ⊢
  rw [ch_sub_iff] at h1 h2 ⊢
  obtain ⟨l, t, hs⟩ := h1
  obtain ⟨l2, t2, hp⟩ := h2
  refine ⟨l ++ l2, t2 ++ t, ?_⟩
  rw [hs]
  rw [List.append_assoc] at hp
  rw [List.append_assoc, List.append_assoc, hp]
  simp [List.append_assoc]

/-- C5 is corrected by this counterexample: the key `DUCT` — which
contains substring `DUCT` — is classified `structural` by the
comprehensive classifier, not `sheet`: the category pattern table is
checked first, and `DUCT` contains the single-letter structural pattern
`C`. -/
theorem duct_classified_structural :
    determine_material_category "DUCT" = "structural" ∧
    determine_material_category "DUCT" ≠ "sheet" := by
  constructor <;> decide

/-- C5 (amended): the PL/DUCT rule is applied only after the category
pattern table.  A key containing `PL` that matches no linear pattern is
classified `sheet` (via the table's own `PL` entry); a key containing
`DUCT` that matches no pattern of the non-structural table entries is
classified `structural`, because `DUCT` itself contains the structural
letter pattern `C` — so no key containing `DUCT` is ever classified
`sheet` by the dedicated PL/DUCT rule. -/
theorem pl_duct_classification_conditions :
    (∀ key : String,
      str_has (up_str key) "PL" = true →
      (∀ pat ∈ ["PIPE", "TUBE", "ANGLE", "CHANNEL", "BEAM", "ROD", "BAR"],
        str_has (up_str key) pat = false) →
      determine_material_category key = "sheet") ∧
    (∀ key : String,
      str_has (up_str key) "DUCT" = true →
      (∀ pat ∈ ["PIPE", "TUBE", "ANGLE", "CHANNEL", "BEAM", "ROD", "BAR",
                "PLATE", "SHEET", "PL", "GRATING", "GRATE", "FRP",
                "BOLT", "NUT", "WASHER", "SCREW", "ANCHOR", "CLIP"],
        str_has (up_str key) pat = false) →
      determine_material_category key = "structural") := by
  constructor
  · intro key hPL hno
    have w1 := hno "PIPE" (by simp)
    have w2 := hno "TUBE" (by simp)
    have w3 := hno "ANGLE" (by simp)
    have w4 := hno "CHANNEL" (by simp)
    have w5 := hno "BEAM" (by simp)
    have w6 := hno "ROD" (by simp)
    have w7 := hno "BAR" (by simp)
    simp [determine_material_category, material_categories,
      first_pattern_match, w1, w2, w3, w4, w5, w6, w7, hPL]
  · intro key hDUCT hno
    have w1 := hno "PIPE" (by simp)
    have w2 := hno "TUBE" (by simp)
    have w3 := hno "ANGLE" (by simp)
    have w4 := hno "CHANNEL" (by simp)
    have w5 := hno "BEAM" (by simp)
    have w6 := hno "ROD" (by simp)
    have w7 := hno "BAR" (by simp)
    have w8 := hno "PLATE" (by simp)
    have w9 := hno "SHEET" (by simp)
    have w10 := hno "PL" (by simp)
    have w11 := hno "GRATING" (by simp)
    have w12 := hno "GRATE" (by simp)
    have w13 := hno "FRP" (by simp)
    have w14 := hno "BOLT" (by simp)
    have w15 := hno "NUT" (by simp)
    have w16 := hno "WASHER" (by simp)
    have w17 := hno "SCREW" (by simp)
    have w18 := hno "ANCHOR" (by simp)
    have w19 := hno "CLIP" (by simp)
    have hC : str_has (up_str key) "C" = true :=
      str_has_trans hDUCT (by decide)
    simp [determine_material_category, material_categories,
      first_pattern_match, w1, w2, w3, w4, w5, w6, w7, w8, w9, w10, w11,
      w12, w13, w14, w15, w16, w17, w18, w19, hC]

theorem pl_duct_classification_conditions_witness :
    str_has (up_str "XPL4") "PL" = true ∧
    determine_material_category "XPL4" = "sheet" :=
  ⟨by decide, pl_duct_classification_conditions.1 "XPL4" (by decide) (by decide)⟩

/-- C6 (amended): `pieces_per_sheet` is the normal-orientation grid count
`⌊sheetW/pieceW⌋ × ⌊sheetL/pieceL⌋` whenever that count is nonzero; the
90°-rotated count is computed only as a fallback when the normal count is
zero.  The optimizer does not take the larger of the two orientations
(see the counterexample). -/
theorem pieces_per_sheet_rotation_fallback (piece : MaterialSpec)
    (rest : List MaterialSpec) (cat : String) (r : SheetSizeResult)
    (h : optimize_single_sheet_size (piece :: rest) cat = some r) :
    ∃ W Len, find_best_sheet_fit piece.width piece.length = some (W, Len) ∧
      r.sheet_details.map SheetDetail.pieces_per_sheet =
        [if ⌊W / piece.width⌋ * ⌊Len / piece.length⌋ = 0 then
           ⌊W / piece.length⌋ * ⌊Len / piece.width⌋
         else ⌊W / piece.width⌋ * ⌊Len / piece.length⌋] ∧
      (if ⌊W / piece.width⌋ * ⌊Len / piece.length⌋ = 0 then
         ⌊W / piece.length⌋ * ⌊Len / piece.width⌋
       else ⌊W / piece.width⌋ * ⌊Len / piece.length⌋) ≠ 0 := by
  simp only [optimize_single_sheet_size] at h
  by_cases hz : piece.width = 0 ∨ piece.length = 0
  · rw [if_pos hz] at h
    cases h
  · rw [if_neg hz] at h
    cases hfit : find_best_sheet_fit piece.width piece.length with
    | none => rw [hfit] at h; cases h
    | some WL =>
      obtain ⟨W, Len⟩ := WL
      simp only [hfit] at h
      by_cases hpps : (if ⌊W / piece.width⌋ * ⌊Len / piece.length⌋ = 0 then
          ⌊W / piece.length⌋ * ⌊Len / piece.width⌋
        else ⌊W / piece.width⌋ * ⌊Len / piece.length⌋) = 0
      · rw [if_pos hpps] at h
        cases h
      · rw [if_neg hpps] at h
        simp only [Option.some.injEq] at h
        subst h
        exact ⟨W, Len, rfl, by simp, hpps⟩

theorem pieces_per_sheet_rotation_fallback_witness :
    ∃ r, optimize_single_sheet_size
        [{ shape_key := "PL-W", category := "sheet", width := 24,
           length := 36, thickness := 0.25, quantity := 10 }] "sheet" =
      some r ∧
    ∃ W Len, find_best_sheet_fit 24 36 = some (W, Len) ∧
      r.sheet_details.map SheetDetail.pieces_per_sheet =
        [if ⌊W / 24⌋ * ⌊Len / 36⌋ = 0 then ⌊W / 36⌋ * ⌊Len / 24⌋
         else ⌊W / 24⌋ * ⌊Len / 36⌋] ∧
      (if ⌊W / 24⌋ * ⌊Len / 36⌋ = 0 then ⌊W / 36⌋ * ⌊Len / 24⌋
       else ⌊W / 24⌋ * ⌊Len / 36⌋) ≠ 0 := by
  have hc : (⌈(5 : ℚ) / 2⌉ : ℤ) = 3 := by
    rw [Int.ceil_eq_iff] <;> norm_num
  have h : optimize_single_sheet_size
      [{ shape_key := "PL-W", category := "sheet", width := 24,
         length := 36, thickness := 0.25, quantity := 10 }] "sheet" =
      some { sheets_needed := 3, cost := 3 * (48 * 96 / 144 * (5 + 0.25 * 2)),
             waste_percentage := (3 * (48 * 96) - 10 * (24 * 36)) /
               (3 * (48 * 96)) * 100,
             sheet_details := [{ width := 48, length := 96,
                                 pieces_per_sheet := 4, quantity := 3 }] } := by
    norm_num [optimize_single_sheet_size, find_best_sheet_fit, fits_piece,
      min_by_waste, standard_plate_sizes, estimate_sheet_cost, hc]
  refine ⟨_, h, ?_⟩
  have h2 := pieces_per_sheet_rotation_fallback _ _ _ _ h
  simpa using h2

/-- C6 is corrected by this counterexample: a 30" × 40" piece on the
chosen 48" × 96" sheet packs 1 × 2 = 2 per sheet in the normal
orientation and 1 × 3 = 3 rotated; the optimizer records
`pieces_per_sheet = 2`, not the larger rotated count 3, because rotation
is only attempted when the normal count is zero. -/
theorem pieces_per_sheet_not_max_orientation :
    ∃ r, optimize_single_sheet_size
        [{ shape_key := "PL-TEST", category := "sheet", width := 30,
           length := 40, thickness := 1, quantity := 3 }] "sheet" = some r ∧
      find_best_sheet_fit 30 40 = some (48, 96) ∧
      r.sheet_details.map SheetDetail.pieces_per_sheet = [2] ∧
      max (⌊(48 : ℚ) / 30⌋ * ⌊(96 : ℚ) / 40⌋)
        (⌊(48 : ℚ) / 40⌋ * ⌊(96 : ℚ) / 30⌋) = 3 ∧
      (2 : ℤ) ≠ 3 := by
  have hc : (⌈(3 : ℚ) / 2⌉ : ℤ) = 2 := by
    rw [Int.ceil_eq_iff] <;> norm_num
  have h : optimize_single_sheet_size
      [{ shape_key := "PL-TEST", category := "sheet", width := 30,
         length := 40, thickness := 1, quantity := 3 }] "sheet" =
      some { sheets_needed := 2, cost := 448,
             waste_percentage := 5616 / 9216 * 100,
             sheet_details := [{ width := 48, length := 96,
                                 pieces_per_sheet := 2, quantity := 2 }] } := by
    norm_num [optimize_single_sheet_size, find_best_sheet_fit, fits_piece,
      min_by_waste, standard_plate_sizes, estimate_sheet_cost, hc]
  refine ⟨_, h, ?_, by simp, ?_, by norm_num⟩
  · norm_num [find_best_sheet_fit, fits_piece, min_by_waste,
      standard_plate_sizes]
  · rw [max_eq_right] <;> norm_num

/-- C7: the hardware bulk-discount loop applies exactly the discount of
the highest threshold met (not cumulative), for every quantity; in
particular 120 units at base cost 1.00 (shape key `NUT`) meet the 100
tier, giving discount 0.10, unit cost 0.90 and total cost 108.00. -/
theorem hardware_highest_threshold_discount :
    (∀ q : ℤ,
      (apply_bulk_discount [(25, 0.02), (50, 0.05), (100, 0.10), (250, 0.15)] q).1 =
      spec_highest_met_discount
        [(25, 0.02), (50, 0.05), (100, 0.10), (250, 0.15)] q) ∧
    estimate_hardware_cost "NUT" = 1 ∧
    (apply_bulk_discount [(25, 0.02), (50, 0.05), (100, 0.10), (250, 0.15)]
      120).1 = 0.10 ∧
    estimate_hardware_cost "NUT" * (1 - 0.10) = 0.90 ∧
    ∃ p, optimize_hardware_batching "NUT"
        [{ shape_key := "NUT", category := "hardware", quantity := 120 }] =
        some p ∧
      p.total_cost = 108 ∧ p.pieces_needed = 120 ∧
      p.bulk_discount_applied = true := by
  have hb : str_has (up_str "NUT") "BOLT" = false := by decide
  have ha : str_has (up_str "NUT") "ASSEMBLY" = false := by decide
  have hcl : str_has (up_str "NUT") "CLIP" = false := by decide
  have han : str_has (up_str "NUT") "ANCHOR" = false := by decide
  have hcost : estimate_hardware_cost "NUT" = 1 := by
    simp [estimate_hardware_cost, hb, ha, hcl, han]
    norm_num
  refine ⟨?_, hcost, by norm_num [apply_bulk_discount], by rw [hcost]; norm_num, ?_⟩
  · intro q
    by_cases h250 : (250 : ℤ) ≤ q <;> by_cases h100 : (100 : ℤ) ≤ q <;>
      by_cases h50 : (50 : ℤ) ≤ q <;> by_cases h25 : (25 : ℤ) ≤ q <;>
      simp [apply_bulk_discount, spec_highest_met_discount, h250, h100, h50, h25]
  · have ht : toString ((120 : ℤ)) = "120" := by decide
    have htn : toString ((10 : ℤ)) = "10" := by decide
    have hparams : get_cat_params_or_empty "hardware" =
        { bulk_thresholds := [25, 50, 100, 250],
          bulk_discounts := [0.02, 0.05, 0.10, 0.15] } := rfl
    have h : optimize_hardware_batching "NUT"
        [{ shape_key := "NUT", category := "hardware", quantity := 120 }] =
        some { shape_key := "NUT"
               size_description := "120 pieces"
               pieces_needed := 120
               total_cost := 120 * (1 * (1 - 0.10))
               waste_percentage := 0
               material_category := "hardware"
               bulk_discount_applied := true
               optimization_notes :=
                 ["Bulk discount applied: 10% off for 120 pieces"] } := by
      norm_num [optimize_hardware_batching, hparams,
        apply_bulk_discount, hcost, fmt_f0, round_eq, htn, ht]
      exact ⟨by decide, by decide⟩
    exact ⟨_, h, by norm_num, rfl, rfl⟩

theorem find_best_sheet_fit_none {w l : ℚ}
    (hnofit : ∀ wl ∈ standard_plate_sizes, fits_piece w l wl.1 wl.2 = false) :
    find_best_sheet_fit w l = none := by
  unfold find_best_sheet_fit
  have hempty : standard_plate_sizes.filterMap (fun wl =>
      if fits_piece w l wl.1 wl.2 then
        some (wl.1 * wl.2 - w * l, wl)
      else none) = [] := by
    rw [List.filterMap_eq_nil]
    intro wl hwl
    rw [hnofit wl hwl]
    rfl
  rw [hempty]
  rfl

theorem optimize_single_sheet_size_none {spec : MaterialSpec} {cat : String}
    (hnofit : ∀ wl ∈ standard_plate_sizes,
      fits_piece spec.width spec.length wl.1 wl.2 = false) :
    optimize_single_sheet_size [spec] cat = none := by
  simp only [optimize_single_sheet_size]
  by_cases hz : spec.width = 0 ∨ spec.length = 0
  · rw [if_pos hz]
  · rw [if_neg hz]
    simp only [find_best_sheet_fit_none hnofit]

theorem optimize_sheet_nesting_none {k : String} {spec : MaterialSpec}
    {cat : String}
    (hnofit : ∀ wl ∈ standard_plate_sizes,
      fits_piece spec.width spec.length wl.1 wl.2 = false) :
    optimize_sheet_nesting k [spec] cat = none := by
  simp only [optimize_sheet_nesting, List.isEmpty_cons, group_by_size,
    List.foldl_cons, List.foldl_nil, dict_add, List.filterMap_cons,
    List.filterMap_nil, optimize_single_sheet_size_none hnofit]
  norm_num

/-- C8 (amended): when a sheet piece fits no catalog sheet size in either
orientation, the comprehensive service records no `NoFitError` and no
note: the sheet optimizer returns `None` for the group, the group is
silently dropped, and the remaining groups are still optimized.  (The
simple service instead fabricates a purchase on the default 96 × 240
sheet — see the counterexample.) -/
theorem sheet_no_fit_group_skipped (k : String) (spec : MaterialSpec)
    (rest : List (String × List MaterialSpec))
    (hnofit : ∀ wl ∈ standard_plate_sizes,
      fits_piece spec.width spec.length wl.1 wl.2 = false) :
    optimize_sheet_materials ((k, [spec]) :: rest) =
    optimize_sheet_materials rest := by
  unfold optimize_sheet_materials
  rw [List.filterMap_cons]
  simp only [optimize_sheet_nesting_none hnofit]

theorem sheet_no_fit_group_skipped_witness :
    optimize_sheet_materials
      [("PLBIG", [{ shape_key := "PLBIG", category := "sheet", width := 130,
                    length := 500, quantity := 2 }]),
       ("PL2", [{ shape_key := "PL2", category := "sheet", width := 24,
                  length := 36, quantity := 4 }])] =
    optimize_sheet_materials
      [("PL2", [{ shape_key := "PL2", category := "sheet", width := 24,
                  length := 36, quantity := 4 }])] :=
  sheet_no_fit_group_skipped "PLBIG" _ _ (by
    intro wl hwl
    fin_cases hwl <;> norm_num [fits_piece])

/-- C8 is corrected by this counterexample: a 130" × 500" piece fits no
catalog plate size in either orientation, yet the simple service's plate
optimizer still fabricates a purchase — it falls back to the largest
96 × 240 sheet and returns a purchase record (with a negative waste
percentage), instead of reporting a `NoFitError` and producing no
purchase. -/
theorem plate_no_fit_purchase_fabricated :
    (∀ wl ∈ standard_plate_sizes, fits_piece 130 500 wl.1 wl.2 = false) ∧
    (simple_optimize_plate_material "PLBIG" 130 500 2).size_description =
      "96x240 sheets" ∧
    (simple_optimize_plate_material "PLBIG" 130 500 2).pieces_needed = 2 ∧
    (simple_optimize_plate_material "PLBIG" 130 500 2).waste_percentage < 0 := by
  have ht96 : toString ((96 : ℤ)) = "96" := by decide
  have ht240 : toString ((240 : ℤ)) = "240" := by decide
  refine ⟨?_, ?_, ?_, ?_⟩
  · intro wl hwl
    fin_cases hwl <;> norm_num [fits_piece]
  · norm_num [simple_optimize_plate_material, simple_best_fit, fits_piece,
      standard_plate_sizes, fmt_f0, round_eq, ht96, ht240]
    decide
  · norm_num [simple_optimize_plate_material, simple_best_fit, fits_piece,
      standard_plate_sizes]
  · norm_num [simple_optimize_plate_material, simple_best_fit, fits_piece,
      standard_plate_sizes]

/-- C9: `optimize_project_materials` is deterministic.  The embedded
pipeline is a pure function of the entry list — the source methods read
only immutable configuration and local state, perform stable sorts and
iterate insertion-ordered dicts — so two runs on identical entry
sequences produce identical `NestingResult`s (purchases and all other
fields). -/
theorem optimize_project_materials_deterministic
    (entries1 entries2 : List TakeoffEntry) (h : entries1 = entries2) :
    optimize_project_materials entries1 = optimize_project_materials entries2 := by
  rw [h]

theorem optimize_project_materials_deterministic_witness :
    ([({ shape_key := "PIPE2", qty := 1, length_in := 100 } : TakeoffEntry)] =
      [({ shape_key := "PIPE2", qty := 1, length_in := 100 } : TakeoffEntry)]) ∧
    optimize_project_materials
      [{ shape_key := "PIPE2", qty := 1, length_in := 100 }] =
    optimize_project_materials
      [{ shape_key := "PIPE2", qty := 1, length_in := 100 }] :=
  ⟨rfl, optimize_project_materials_deterministic _ _ rfl⟩

theorem min_by_waste_mem :
    ∀ {l : List (ℚ × (ℚ × ℚ))} {x}, min_by_waste l = some x → x ∈ l := by
  intro l
  induction l with
  | nil => intro x h; cases h
  | cons hd tl ih =>
    intro x h
    simp only [min_by_waste] at h
    cases hm : min_by_waste tl with
    | none =>
      rw [hm] at h
      simp only [Option.some.injEq] at h
      exact h ▸ List.mem_cons_self _ _
    | some m =>
      simp only [hm] at h
      by_cases hle : hd.1 ≤ m.1
      · rw [if_pos hle] at h
        simp only [Option.some.injEq] at h
        exact h ▸ List.mem_cons_self _ _
      · rw [if_neg hle] at h
        simp only [Option.some.injEq] at h
        exact List.mem_cons_of_mem _ (h ▸ ih hm)

theorem find_best_sheet_fit_mem {w l W Len : ℚ}
    (h : find_best_sheet_fit w l = some (W, Len)) :
    (W, Len) ∈ standard_plate_sizes := by
  unfold find_best_sheet_fit at h
  simp only [Option.map_eq_some'] at h
  obtain ⟨x, hx, hx2⟩ := h
  have hmem := min_by_waste_mem hx
  simp only [List.mem_filterMap] at hmem
  obtain ⟨wl, hwl, hif⟩ := hmem
  by_cases hfits : fits_piece w l wl.1 wl.2
  · rw [if_pos hfits] at hif
    simp only [Option.some.injEq] at hif
    have : wl = (W, Len) := by
      have := congrArg Prod.snd hif
      simp only at this
      rw [← hx2, this]
    exact this ▸ hwl
  · rw [if_neg hfits] at hif
    cases hif

theorem plate_sizes_pos : ∀ wl ∈ standard_plate_sizes,
    (0 : ℚ) < wl.1 ∧ (0 : ℚ) < wl.2 := by
  intro wl hwl
  fin_cases hwl <;> constructor <;> norm_num

theorem grid_area_bound {W Len pw pl : ℚ} (hpw : 0 < pw) (hpl : 0 < pl)
    (hW : 0 ≤ W) (hL : 0 ≤ Len) :
    ((⌊W / pw⌋ * ⌊Len / pl⌋ : ℤ) : ℚ) * (pw * pl) ≤ W * Len := by
  have h1 : ((⌊W / pw⌋ : ℤ) : ℚ) ≤ W / pw := Int.floor_le _
  have h2 : ((⌊Len / pl⌋ : ℤ) : ℚ) ≤ Len / pl := Int.floor_le _
  have h1n : (0 : ℚ) ≤ ((⌊W / pw⌋ : ℤ) : ℚ) := by
    have : (0 : ℤ) ≤ ⌊W / pw⌋ := Int.floor_nonneg.mpr (div_nonneg hW hpw.le)
    exact_mod_cast this
  have h2n : (0 : ℚ) ≤ ((⌊Len / pl⌋ : ℤ) : ℚ) := by
    have : (0 : ℤ) ≤ ⌊Len / pl⌋ := Int.floor_nonneg.mpr (div_nonneg hL hpl.le)
    exact_mod_cast this
  have hmul : ((⌊W / pw⌋ : ℤ) : ℚ) * ((⌊Len / pl⌋ : ℤ) : ℚ) ≤
      (W / pw) * (Len / pl) := mul_le_mul h1 h2 h2n (le_trans h1n h1)
  have hquot : (W / pw) * (Len / pl) * (pw * pl) = W * Len := by
    field_simp
  push_cast
  calc ((⌊W / pw⌋ : ℤ) : ℚ) * ((⌊Len / pl⌋ : ℤ) : ℚ) * (pw * pl)
      ≤ (W / pw) * (Len / pl) * (pw * pl) := by
        apply mul_le_mul_of_nonneg_right hmul
        positivity
    _ = W * Len := hquot

theorem sum_quantities_pos {specs : List MaterialSpec} (hne : specs ≠ [])
    (h : ∀ s ∈ specs, spec_nn s) :
    1 ≤ (specs.map MaterialSpec.quantity).sum := by
  cases specs with
  | nil => exact absurd rfl hne
  | cons s rest =>
    have h1 : 1 ≤ s.quantity := (h s (List.mem_cons_self _ _)).2.2.2
    have h2 : 0 ≤ (rest.map MaterialSpec.quantity).sum := by
      apply List.sum_nonneg
      intro q hq
      simp only [List.mem_map] at hq
      obtain ⟨s2, hs2, rfl⟩ := hq
      exact le_trans (by norm_num) (h s2 (List.mem_cons_of_mem _ hs2)).2.2.2
    simp only [List.map_cons, List.sum_cons]
    linarith

theorem single_sheet_bounds {specs : List MaterialSpec} {cat : String}
    {r : SheetSizeResult} (h : optimize_single_sheet_size specs cat = some r)
    (hnn : ∀ s ∈ specs, spec_nn s) :
    0 ≤ r.waste_percentage ∧ r.waste_percentage ≤ 100 ∧ 0 ≤ r.cost := by
  cases specs with
  | nil => simp [optimize_single_sheet_size] at h
  | cons piece rest =>
    simp only [optimize_single_sheet_size] at h
    by_cases hz : piece.width = 0 ∨ piece.length = 0
    · rw [if_pos hz] at h; cases h
    · rw [if_neg hz] at h
      push_neg at hz
      obtain ⟨hw0, hl0⟩ := hz
      have hsp := hnn piece (List.mem_cons_self _ _)
      have hpw : 0 < piece.width := lt_of_le_of_ne hsp.2.1 (Ne.symm hw0)
      have hpl : 0 < piece.length := lt_of_le_of_ne hsp.1 (Ne.symm hl0)
      have hpt : 0 ≤ piece.thickness := hsp.2.2.1
      cases hfit : find_best_sheet_fit piece.width piece.length with
      | none => simp only [hfit] at h; cases h
      | some WL =>
        obtain ⟨W, Len⟩ := WL
        simp only [hfit] at h
        obtain ⟨hW, hLen⟩ := plate_sizes_pos _ (find_best_sheet_fit_mem hfit)
        simp only at hW hLen
        set pps := (if ⌊W / piece.width⌋ * ⌊Len / piece.length⌋ = 0 then
            ⌊W / piece.length⌋ * ⌊Len / piece.width⌋
          else ⌊W / piece.width⌋ * ⌊Len / piece.length⌋) with hpps_def
        by_cases hpps0 : pps = 0
        · rw [if_pos hpps0] at h; cases h
        · rw [if_neg hpps0] at h
          simp only [Option.some.injEq] at h
          subst h
          have hppsnn : 0 ≤ pps := by
            rw [hpps_def]
            by_cases hcase : ⌊W / piece.width⌋ * ⌊Len / piece.length⌋ = 0
            · rw [if_pos hcase]
              apply mul_nonneg
              · exact Int.floor_nonneg.mpr (div_nonneg hW.le hpl.le)
              · exact Int.floor_nonneg.mpr (div_nonneg hLen.le hpw.le)
            · rw [if_neg hcase]
              apply mul_nonneg
              · exact Int.floor_nonneg.mpr (div_nonneg hW.le hpw.le)
              · exact Int.floor_nonneg.mpr (div_nonneg hLen.le hpl.le)
          have hpps1 : 1 ≤ pps := by omega
          have hppsQ : (0 : ℚ) < (pps : ℚ) := by exact_mod_cast by omega
          have harea : (pps : ℚ) * (piece.width * piece.length) ≤ W * Len := by
            rw [hpps_def]
            by_cases hcase : ⌊W / piece.width⌋ * ⌊Len / piece.length⌋ = 0
            · rw [if_pos hcase]
              have := grid_area_bound hpl hpw hW.le hLen.le
              calc ((⌊W / piece.length⌋ * ⌊Len / piece.width⌋ : ℤ) : ℚ) *
                  (piece.width * piece.length)
                  = ((⌊W / piece.length⌋ * ⌊Len / piece.width⌋ : ℤ) : ℚ) *
                    (piece.length * piece.width) := by ring
                _ ≤ W * Len := this
            · rw [if_neg hcase]
              exact grid_area_bound hpw hpl hW.le hLen.le
          set qty := ((piece :: rest).map MaterialSpec.quantity).sum with hqty_def
          have hqty : 1 ≤ qty :=
            sum_quantities_pos (List.cons_ne_nil _ _) hnn
          have hqtyQ : (0 : ℚ) < (qty : ℚ) := by exact_mod_cast by omega
          set sheets := ⌈(qty : ℚ) / (pps : ℚ)⌉ with hsheets_def
          have hsheets1 : 1 ≤ sheets := by
            rw [hsheets_def]
            have : (0 : ℚ) < (qty : ℚ) / (pps : ℚ) := div_pos hqtyQ hppsQ
            exact Int.ceil_pos.mpr this
          have hsheetsQ : (0 : ℚ) < (sheets : ℚ) := by exact_mod_cast by omega
          have hsheets_ge : (qty : ℚ) / (pps : ℚ) ≤ ((sheets : ℤ) : ℚ) :=
            Int.le_ceil _
          have htotal : (0 : ℚ) < (sheets : ℚ) * (W * Len) := by positivity
          have hused_le : (qty : ℚ) * (piece.width * piece.length) ≤
              (sheets : ℚ) * (W * Len) := by
            have h5 : (qty : ℚ) * (piece.width * piece.length) ≤
                (qty : ℚ) / (pps : ℚ) * (W * Len) := by
              rw [div_mul_eq_mul_div, le_div_iff hppsQ]
              nlinarith
            calc (qty : ℚ) * (piece.width * piece.length)
                ≤ (qty : ℚ) / (pps : ℚ) * (W * Len) := h5
              _ ≤ (sheets : ℚ) * (W * Len) := by
                  apply mul_le_mul_of_nonneg_right hsheets_ge
                  positivity
          have hused_nn : (0 : ℚ) ≤ (qty : ℚ) * (piece.width * piece.length) := by
            positivity
          refine ⟨?_, ?_, ?_⟩
          · show (0 : ℚ) ≤ if 0 < (sheets : ℚ) * (W * Len) then
              ((sheets : ℚ) * (W * Len) - (qty : ℚ) *
                (piece.width * piece.length)) / ((sheets : ℚ) * (W * Len)) * 100
              else 0
            rw [if_pos htotal]
            apply mul_nonneg _ (by norm_num : (0 : ℚ) ≤ 100)
            apply div_nonneg _ htotal.le
            linarith
          · show (if 0 < (sheets : ℚ) * (W * Len) then
              ((sheets : ℚ) * (W * Len) - (qty : ℚ) *
                (piece.width * piece.length)) / ((sheets : ℚ) * (W * Len)) * 100
              else 0) ≤ 100
            rw [if_pos htotal]
            have hfrac : ((sheets : ℚ) * (W * Len) - (qty : ℚ) *
                (piece.width * piece.length)) / ((sheets : ℚ) * (W * Len)) ≤ 1 := by
              rw [div_le_one htotal]
              linarith
            nlinarith
          · show (0 : ℚ) ≤ (sheets : ℚ) *
              estimate_sheet_cost W Len piece.thickness
            apply mul_nonneg hsheetsQ.le
            unfold estimate_sheet_cost
            positivity

theorem dict_add_allP {κ α : Type} [DecidableEq κ] (P : α → Prop) :
    ∀ (l : List (κ × List α)) (k : κ) (a : α),
      (∀ g ∈ l, ∀ x ∈ g.2, P x) → P a →
      ∀ g ∈ dict_add l k a, ∀ x ∈ g.2, P x := by
  intro l
  induction l with
  | nil =>
    intro k a _ ha g hg x hx
    simp only [dict_add, List.mem_singleton] at hg
    subst hg
    simp only [List.mem_singleton] at hx
    exact hx ▸ ha
  | cons hd tl ih =>
    intro k a hl ha g hg x hx
    obtain ⟨k2, as2⟩ := hd
    simp only [dict_add] at hg
    by_cases hk : k2 = k
    · rw [if_pos hk] at hg
      rcases List.mem_cons.mp hg with rfl | hg2
      · rcases List.mem_append.mp hx with hx2 | hx2
        · exact hl (k2, as2) (List.mem_cons_self _ _) x hx2
        · simp only [List.mem_singleton] at hx2
          exact hx2 ▸ ha
      · exact hl g (List.mem_cons_of_mem _ hg2) x hx
    · rw [if_neg hk] at hg
      rcases List.mem_cons.mp hg with rfl | hg2
      · exact hl (k2, as2) (List.mem_cons_self _ _) x hx
      · exact ih k a (fun g2 hg3 => hl g2 (List.mem_cons_of_mem _ hg3)) ha
          g hg2 x hx

theorem group_by_size_allP (P : MaterialSpec → Prop) :
    ∀ (specs : List MaterialSpec)
      (acc : List ((ℚ × ℚ × ℚ) × List MaterialSpec)),
      (∀ g ∈ acc, ∀ x ∈ g.2, P x) → (∀ s ∈ specs, P s) →
      ∀ g ∈ specs.foldl
        (fun acc2 s => dict_add acc2 (s.width, s.length, s.thickness) s) acc,
        ∀ x ∈ g.2, P x := by
  intro specs
  induction specs with
  | nil => intro acc hacc _ g hg; exact hacc g hg
  | cons s rest ih =>
    intro acc hacc hspecs
    simp only [List.foldl_cons]
    exact ih _ (dict_add_allP P acc _ s hacc (hspecs s (List.mem_cons_self _ _)))
      (fun s2 hs2 => hspecs s2 (List.mem_cons_of_mem _ hs2))

theorem weighted_sum_bounds :
    ∀ (results : List SheetSizeResult),
      (∀ r ∈ results, 0 ≤ r.waste_percentage ∧ r.waste_percentage ≤ 100 ∧
        0 ≤ r.cost) →
      0 ≤ (results.map (fun r => r.waste_percentage * r.cost)).sum ∧
      (results.map (fun r => r.waste_percentage * r.cost)).sum ≤
        100 * (results.map SheetSizeResult.cost).sum ∧
      0 ≤ (results.map SheetSizeResult.cost).sum := by
  intro results
  induction results with
  | nil => intro _; norm_num
  | cons r rest ih =>
    intro h
    obtain ⟨h1, h2, h3⟩ := h r (List.mem_cons_self _ _)
    obtain ⟨ih1, ih2, ih3⟩ := ih (fun r2 hr2 => h r2 (List.mem_cons_of_mem _ hr2))
    simp only [List.map_cons, List.sum_cons]
    refine ⟨?_, ?_, ?_⟩
    · have : 0 ≤ r.waste_percentage * r.cost := mul_nonneg h1 h3
      linarith
    · have : r.waste_percentage * r.cost ≤ 100 * r.cost := by nlinarith
      linarith
    · linarith

theorem sheet_nesting_bounds {k : String} {specs : List MaterialSpec}
    {cat : String} {p : MaterialPurchase}
    (h : optimize_sheet_nesting k specs cat = some p)
    (hnn : ∀ s ∈ specs, spec_nn s) :
    0 ≤ p.waste_percentage ∧ p.waste_percentage ≤ 100 := by
  simp only [optimize_sheet_nesting] at h
  by_cases hE : specs.isEmpty
  · rw [if_pos hE] at h; cases h
  · rw [if_neg hE] at h
    set results := (group_by_size specs).filterMap
      (fun g => optimize_single_sheet_size g.2 cat) with hres_def
    have hres_bounds : ∀ r ∈ results, 0 ≤ r.waste_percentage ∧
        r.waste_percentage ≤ 100 ∧ 0 ≤ r.cost := by
      intro r hr
      rw [hres_def] at hr
      simp only [List.mem_filterMap] at hr
      obtain ⟨g, hg, hopt⟩ := hr
      have hgnn : ∀ s ∈ g.2, spec_nn s :=
        group_by_size_allP spec_nn specs [] (by simp) hnn g hg
      exact single_sheet_bounds hopt hgnn
    obtain ⟨hw1, hw2, hw3⟩ := weighted_sum_bounds results hres_bounds
    by_cases htc : (results.map SheetSizeResult.cost).sum = 0
    · rw [if_pos htc] at h; cases h
    · rw [if_neg htc] at h
      simp only [Option.some.injEq] at h
      subst h
      have htcpos : 0 < (results.map SheetSizeResult.cost).sum :=
        lt_of_le_of_ne hw3 (Ne.symm htc)
      constructor
      · show (0 : ℚ) ≤ (results.map (fun r => r.waste_percentage * r.cost)).sum /
          (results.map SheetSizeResult.cost).sum
        exact div_nonneg hw1 hw3
      · show (results.map (fun r => r.waste_percentage * r.cost)).sum /
          (results.map SheetSizeResult.cost).sum ≤ 100
        rw [div_le_iff htcpos]
        linarith

theorem cuts_of_specs_nonneg {specs : List MaterialSpec}
    (h : ∀ s ∈ specs, spec_nn s) : ∀ c ∈ cuts_of_specs specs, 0 ≤ c := by
  intro c hc
  simp only [cuts_of_specs, List.mem_flatMap] at hc
  obtain ⟨s, hs, hcm⟩ := hc
  have := List.eq_of_mem_replicate hcm
  exact this ▸ (h s hs).1

theorem linear_purchase_waste_bounds {k cat : String} {cuts : List ℚ}
    {p : MaterialPurchase} (h : optimize_linear_cuts k cuts cat = some p)
    (hnn : ∀ c ∈ cuts, 0 ≤ c) :
    0 ≤ p.waste_percentage ∧ p.waste_percentage ≤ 100 := by
  obtain ⟨hcE, r, hpick, hpn, hsl, hwp, hcps, hu⟩ := optimize_linear_cuts_elim h
  rcases pick_best_pack_mem hpick with hbad | ⟨L, hL, hfL⟩
  · cases hbad
  · have hsnn : ∀ c ∈ sort_desc cuts, 0 ≤ c :=
      fun c hcm => hnn c ((sort_desc_perm cuts).mem_iff.mp hcm)
    have := bin_pack_waste_bounds hfL hsnn (kerf_of_nonneg cat)
    rw [hwp]
    exact this

theorem waste_target_in_range (cat : String) :
    0 ≤ (get_cat_params_or_empty cat).waste_target.getD 5.0 ∧
    (get_cat_params_or_empty cat).waste_target.getD 5.0 ≤ 100 := by
  unfold get_cat_params_or_empty optimization_params
  simp only [List.find?]
  repeat' split <;> norm_num

theorem panel_purchase_waste_bounds {k cat : String}
    {specs : List MaterialSpec} {p : MaterialPurchase}
    (h : optimize_panel_nesting k specs cat = some p) :
    0 ≤ p.waste_percentage ∧ p.waste_percentage ≤ 100 := by
  simp only [optimize_panel_nesting] at h
  by_cases hE : specs.isEmpty
  · rw [if_pos hE] at h; cases h
  · rw [if_neg hE] at h
    simp only [Option.some.injEq] at h
    subst h
    exact waste_target_in_range cat

theorem hardware_purchase_waste_zero {k : String} {specs : List MaterialSpec}
    {p : MaterialPurchase} (h : optimize_hardware_batching k specs = some p) :
    p.waste_percentage = 0 := by
  simp only [optimize_hardware_batching] at h
  by_cases hE : specs.isEmpty
  · rw [if_pos hE] at h; cases h
  · rw [if_neg hE] at h
    simp only [Option.some.injEq] at h
    subst h
    rfl

theorem entry_spec_nn {e : TakeoffEntry} {cat : String} (he : entry_nn e)
    (hq : 1 ≤ e.qty) : spec_nn (spec_of_entry e cat) := by
  obtain ⟨h1, h2, h3, h4⟩ := he
  refine ⟨?_, h3, h4, hq⟩
  simp only [spec_of_entry]
  positivity

theorem categorize_preserves_nn {groups : MaterialGroups} {e : TakeoffEntry}
    (hg : groups_nn groups) (he : entry_nn e) :
    groups_nn (categorize_and_process_entry groups e) := by
  obtain ⟨g1, g2, g3, g4, g5, g6, g7⟩ := hg
  simp only [categorize_and_process_entry]
  by_cases hkey : entry_shape_key e = ""
  · rw [if_pos hkey]
    exact ⟨g1, g2, g3, g4, g5, g6, g7⟩
  · rw [if_neg hkey]
    by_cases hq : e.qty ≤ 0
    · rw [if_pos hq]
      exact ⟨g1, g2, g3, g4, g5, g6, g7⟩
    · rw [if_neg hq]
      push_neg at hq
      have hspec : spec_nn (spec_of_entry e
          (determine_material_category (entry_shape_key e))) :=
        entry_spec_nn he (by omega)
      split_ifs <;>
        exact ⟨by first
            | exact dict_add_allP spec_nn _ _ _ g1 hspec
            | exact g1,
          by first
            | exact dict_add_allP spec_nn _ _ _ g2 hspec
            | exact g2,
          by first
            | exact dict_add_allP spec_nn _ _ _ g3 hspec
            | exact g3,
          by first
            | exact dict_add_allP spec_nn _ _ _ g4 hspec
            | exact g4,
          by first
            | exact dict_add_allP spec_nn _ _ _ g5 hspec
            | exact g5,
          by first
            | exact dict_add_allP spec_nn _ _ _ g6 hspec
            | exact g6,
          by first
            | exact dict_add_allP spec_nn _ _ _ g7 hspec
            | exact g7⟩

theorem build_groups_nn :
    ∀ (entries : List TakeoffEntry) (groups : MaterialGroups),
      groups_nn groups → (∀ e ∈ entries, entry_nn e) →
      groups_nn (entries.foldl categorize_and_process_entry groups) := by
  intro entries
  induction entries with
  | nil => intro groups hg _; exact hg
  | cons e rest ih =>
    intro groups hg he
    simp only [List.foldl_cons]
    exact ih _ (categorize_preserves_nn hg (he e (List.mem_cons_self _ _)))
      (fun e2 he2 => he e2 (List.mem_cons_of_mem _ he2))

theorem linear_materials_bounds {materials : List (String × List MaterialSpec)}
    (hnn : bucket_nn materials) :
    ∀ p ∈ optimize_linear_materials materials,
      0 ≤ p.waste_percentage ∧ p.waste_percentage ≤ 100 := by
  intro p hp
  simp only [optimize_linear_materials, List.mem_filterMap] at hp
  obtain ⟨g, hg, hopt⟩ := hp
  exact linear_purchase_waste_bounds hopt (cuts_of_specs_nonneg (hnn g hg))

theorem structural_materials_bounds
    {materials : List (String × List MaterialSpec)} (hnn : bucket_nn materials) :
    ∀ p ∈ optimize_structural_materials materials,
      0 ≤ p.waste_percentage ∧ p.waste_percentage ≤ 100 := by
  intro p hp
  simp only [optimize_structural_materials, List.mem_filterMap] at hp
  obtain ⟨g, hg, hopt⟩ := hp
  exact linear_purchase_waste_bounds hopt (cuts_of_specs_nonneg (hnn g hg))

theorem sheet_materials_bounds {materials : List (String × List MaterialSpec)}
    (hnn : bucket_nn materials) :
    ∀ p ∈ optimize_sheet_materials materials,
      0 ≤ p.waste_percentage ∧ p.waste_percentage ≤ 100 := by
  intro p hp
  simp only [optimize_sheet_materials, List.mem_filterMap] at hp
  obtain ⟨g, hg, hopt⟩ := hp
  exact sheet_nesting_bounds hopt (hnn g hg)

theorem grating_materials_bounds {materials : List (String × List MaterialSpec)} :
    ∀ p ∈ optimize_grating_materials materials,
      0 ≤ p.waste_percentage ∧ p.waste_percentage ≤ 100 := by
  intro p hp
  simp only [optimize_grating_materials, List.mem_filterMap] at hp
  obtain ⟨g, hg, hopt⟩ := hp
  exact panel_purchase_waste_bounds hopt

theorem frp_materials_bounds {materials : List (String × List MaterialSpec)} :
    ∀ p ∈ optimize_frp_materials materials,
      0 ≤ p.waste_percentage ∧ p.waste_percentage ≤ 100 := by
  intro p hp
  simp only [optimize_frp_materials, List.mem_filterMap, Option.map_eq_some']
    at hp
  obtain ⟨g, hg, p2, hopt, hp2⟩ := hp
  have := panel_purchase_waste_bounds hopt
  subst hp2
  exact this

theorem hardware_materials_bounds
    {materials : List (String × List MaterialSpec)} :
    ∀ p ∈ optimize_hardware_materials materials,
      0 ≤ p.waste_percentage ∧ p.waste_percentage ≤ 100 := by
  intro p hp
  simp only [optimize_hardware_materials, List.mem_filterMap] at hp
  obtain ⟨g, hg, hopt⟩ := hp
  rw [hardware_purchase_waste_zero hopt]
  norm_num

theorem general_materials_bounds {materials : List (String × List MaterialSpec)} :
    ∀ p ∈ optimize_general_materials materials,
      0 ≤ p.waste_percentage ∧ p.waste_percentage ≤ 100 := by
  intro p hp
  simp only [optimize_general_materials, List.mem_map] at hp
  obtain ⟨g, hg, hp2⟩ := hp
  subst hp2
  norm_num

theorem mem_result_purchases {entries : List TakeoffEntry} {p : MaterialPurchase}
    (hp : p ∈ (optimize_project_materials entries).material_purchases) :
    p ∈ optimize_linear_materials (build_groups entries).linear ++
        optimize_sheet_materials (build_groups entries).sheet ++
        optimize_grating_materials (build_groups entries).grating ++
        optimize_frp_materials (build_groups entries).frp ++
        optimize_hardware_materials (build_groups entries).hardware ++
        optimize_structural_materials (build_groups entries).structural ++
        optimize_general_materials (build_groups entries).general := by
  simp only [optimize_project_materials] at hp
  split at hp
  · simp at hp
  · simpa using hp

/-- C2 (amended): every purchase produced by the comprehensive service's
optimization run on entries with nonnegative dimensions has a waste
percentage between 0 and 100 inclusive, across all material families.
(The simple service violates the bound for an oversized cut or piece —
see the counterexample.) -/
theorem clean_waste_percentage_in_range (entries : List TakeoffEntry)
    (hnn : ∀ e ∈ entries, entry_nn e) :
    ∀ p ∈ (optimize_project_materials entries).material_purchases,
      0 ≤ p.waste_percentage ∧ p.waste_percentage ≤ 100 := by
  intro p hp
  have hempty : groups_nn ({} : MaterialGroups) := by
    refine ⟨?_, ?_, ?_, ?_, ?_, ?_, ?_⟩ <;> intro g hg <;> simp at hg
  obtain ⟨g1, g2, g3, g4, g5, g6, g7⟩ := build_groups_nn entries {} hempty hnn
  have hp2 := mem_result_purchases hp
  rcases List.mem_append.mp hp2 with hp3 | hp3
  rcases List.mem_append.mp hp3 with hp4 | hp4
  rcases List.mem_append.mp hp4 with hp5 | hp5
  rcases List.mem_append.mp hp5 with hp6 | hp6
  rcases List.mem_append.mp hp6 with hp7 | hp7
  rcases List.mem_append.mp hp7 with hp8 | hp8
  · exact linear_materials_bounds g1 p hp8
  · exact sheet_materials_bounds g2 p hp8
  · exact grating_materials_bounds p hp7
  · exact frp_materials_bounds p hp6
  · exact hardware_materials_bounds p hp5
  · exact structural_materials_bounds g6 p hp4
  · exact general_materials_bounds p hp3

theorem clean_waste_percentage_in_range_witness :
    (∀ e ∈ [({ shape_key := "PIPE2", qty := 1, length_in := 100 } :
        TakeoffEntry)], entry_nn e) ∧
    ∀ p ∈ (optimize_project_materials
        [{ shape_key := "PIPE2", qty := 1, length_in := 100 }]).material_purchases,
      0 ≤ p.waste_percentage ∧ p.waste_percentage ≤ 100 :=
  ⟨by
    intro e he
    rw [List.mem_singleton] at he
    subst he
    refine ⟨by norm_num, by norm_num, by norm_num, by norm_num⟩,
  clean_waste_percentage_in_range _ (by
    intro e he
    rw [List.mem_singleton] at he
    subst he
    refine ⟨by norm_num, by norm_num, by norm_num, by norm_num⟩)⟩

/-- C2 is corrected by this counterexample: the simple service's linear
optimizer packs a single 900-inch cut onto one 720-inch stick and returns
a purchase whose waste percentage is negative, outside the claimed
[0, 100] range. -/
theorem simple_waste_percentage_negative :
    ∃ p, simple_optimize_linear_material "W12X26" [900] = some p ∧
      p.waste_percentage < 0 := by
  refine ⟨_, rfl, ?_⟩
  norm_num [simple_optimize_linear_material, sort_desc, insert_desc,
    simple_pack, place_first]
